import Mathlib

-- The rational arithmetic of the float model must evaluate inside
-- concrete witnesses; the core Rat operations are irreducible by
-- default, which only affects elaboration, not the kernel.
set_option allowUnsafeReducibility true
attribute [semireducible] Rat.add Rat.mul Rat.sub Rat.div Rat.neg Rat.inv
set_option maxRecDepth 10000
set_option exponentiation.threshold 1100

/-!
Verification development for the cleango tabular-data cleaning engine.

The Go sources are shallowly embedded: the DataFrame model and the
sequential operation set come from pkg/cleaner (dataframe code), the
parallel drivers from the parallel code, and the scalar utilities from
the utils code.  Go in-place mutation of the receiver is made explicit:
an operation returns the state of the receiver after the call together
with its error, mirroring what the Go code writes into the receiver
before returning.  Machine floats are modelled exactly over ℚ with the
overflow/underflow range failures of strconv.ParseFloat made explicit
(hexadecimal float literals are not modelled); Go time.Parse and
time.Format are modelled by a reference-layout interpreter covering the
layout chunks used by the repository.
-/

namespace Cleango

/-! ## Scalar utilities: whitespace, case folding, float parsing -/

/-- White-space test of Go unicode.IsSpace, used by strings.TrimSpace. -/
def isGoSpace (c : Char) : Bool :=
  decide (c.toNat = 9 ∨ c.toNat = 10 ∨ c.toNat = 11 ∨ c.toNat = 12 ∨ c.toNat = 13 ∨
    c.toNat = 32 ∨ c.toNat = 0x85 ∨ c.toNat = 0xA0 ∨ c.toNat = 0x1680 ∨
    (0x2000 ≤ c.toNat ∧ c.toNat ≤ 0x200A) ∨ c.toNat = 0x2028 ∨ c.toNat = 0x2029 ∨
    c.toNat = 0x202F ∨ c.toNat = 0x205F ∨ c.toNat = 0x3000)

/-- Model of Go strings.TrimSpace: drop white space from both ends. -/
def goTrimSpace (s : String) : String :=
  ⟨((s.toList.dropWhile isGoSpace).reverse.dropWhile isGoSpace).reverse⟩

/-- Model of Go strings.ToUpper at ASCII level (no claim depends on the
case fold itself, only on the cell-wise shape of the rewrite). -/
def goToUpper (s : String) : String :=
  ⟨s.toList.map Char.toUpper⟩

/-- Model of Go strings.ToLower at ASCII level. -/
def goToLower (s : String) : String :=
  ⟨s.toList.map Char.toLower⟩

/-- Result of strconv.ParseFloat when it reports no error. -/
inductive GoFloat where
  | finite (q : ℚ)
  | posInf
  | negInf
  | nan
deriving DecidableEq, Repr

def isDigitChar (c : Char) : Bool := decide (48 ≤ c.toNat ∧ c.toNat ≤ 57)

def digitVal (c : Char) : Nat := c.toNat - 48

def digitsToNat (ds : List Char) : Nat :=
  ds.foldl (fun a c => 10 * a + digitVal c) 0

/-- Auxiliary scan for `underscoresOK`, carrying the previous character. -/
def underscoresOKGo : Option Char → List Char → Bool
  | _, [] => true
  | prev, '_' :: rest =>
      (match prev with | some p => isDigitChar p | none => false) &&
      (match rest with | d :: _ => isDigitChar d | [] => false) &&
      underscoresOKGo (some '_') rest
  | _, c :: rest => underscoresOKGo (some c) rest

/-- Digit-separating underscores are legal only between two digits
(Go strconv underscoreOK, restricted to decimal literals). -/
def underscoresOK (cs : List Char) : Bool :=
  underscoresOKGo none cs

/-- Mantissa of a decimal float literal: integer digits, an optional dot
and fraction digits; at least one digit in total.  Returns the value and
the unconsumed remainder. -/
def pfMantissa (cs : List Char) : Option (ℚ × List Char) :=
  if (cs.dropWhile isDigitChar).head? = some '.' then
    if (cs.takeWhile isDigitChar).length +
        ((cs.dropWhile isDigitChar).tail.takeWhile isDigitChar).length = 0 then none
    else
      some ((digitsToNat (cs.takeWhile isDigitChar) : ℚ) +
          (digitsToNat ((cs.dropWhile isDigitChar).tail.takeWhile isDigitChar) : ℚ) /
            ((10 : ℚ) ^ ((cs.dropWhile isDigitChar).tail.takeWhile isDigitChar).length),
        (cs.dropWhile isDigitChar).tail.dropWhile isDigitChar)
  else if (cs.takeWhile isDigitChar).length = 0 then none
  else some ((digitsToNat (cs.takeWhile isDigitChar) : ℚ), cs.dropWhile isDigitChar)

def pfExp (q : ℚ) (cs : List Char) : Option ℚ :=
  let neg : Bool := match cs with | c :: _ => c = '-' | [] => false
  let ds : List Char := match cs with | c :: r => if c = '-' ∨ c = '+' then r else cs | [] => []
  if ds ≠ [] ∧ ds.all isDigitChar then
    some (if neg then q / (10 : ℚ) ^ digitsToNat ds else q * (10 : ℚ) ^ digitsToNat ds)
  else none

/-- Optional exponent part after the mantissa; the whole input must be
consumed, as strconv.ParseFloat rejects trailing text. -/
def pfTail (q : ℚ) (cs : List Char) : Option ℚ :=
  match cs with
  | [] => some q
  | c :: rest => if c = 'e' ∨ c = 'E' then pfExp q rest else none

def toLowerList (cs : List Char) : List Char := cs.map Char.toLower

/-- Largest magnitude that still rounds to a finite float64; at or above
this boundary strconv.ParseFloat reports ErrRange, which every caller in
the repository treats as a failed conversion. -/
def float64OverflowBound : ℚ := ((2 ^ 1024 - 2 ^ 970 : ℕ) : ℚ)

/-- Magnitude at or below which a non-zero value rounds to zero and
strconv.ParseFloat reports ErrRange. -/
def float64UnderflowBound : ℚ := mkRat 1 (2 ^ 1075)

/-- Model of strconv.ParseFloat (bit size 64): `none` when Go reports a
non-nil error (syntax error or ErrRange).  Decimal and special forms are
covered; hexadecimal float literals are not modelled. -/
def stripSign (cs : List Char) : Bool × List Char :=
  match cs with
  | c :: r => if c = '-' then (true, r) else if c = '+' then (false, r) else (false, cs)
  | [] => (false, [])

/-- Final range test of strconv.ParseFloat, mapping ErrRange to `none`. -/
def pfFinish (q : ℚ) : Option GoFloat :=
  if |q| ≥ float64OverflowBound then none
  else if q ≠ 0 ∧ |q| ≤ float64UnderflowBound then none
  else some (.finite q)

/-- Decimal part of strconv.ParseFloat: mantissa, optional exponent,
range test. -/
def pfDecimal (neg : Bool) (cs : List Char) : Option GoFloat :=
  (pfMantissa cs).bind (fun pr =>
    (pfTail pr.1 pr.2).bind (fun q0 => pfFinish (if neg then -q0 else q0)))

def goParseFloat (s : String) : Option GoFloat :=
  if toLowerList (stripSign s.toList).2 = "inf".toList ∨
      toLowerList (stripSign s.toList).2 = "infinity".toList then
    some (if (stripSign s.toList).1 then .negInf else .posInf)
  else if toLowerList (stripSign s.toList).2 = "nan".toList then
    some .nan
  else if underscoresOK (stripSign s.toList).2 then
    pfDecimal (stripSign s.toList).1 ((stripSign s.toList).2.filter (fun c => c ≠ '_'))
  else none

/-- Model of the utils helper parseFloat, which trims white space before
calling strconv.ParseFloat — unlike the sequential FilterOutliers, which
parses the raw cell. -/
def utilParseFloat (s : String) : Option GoFloat :=
  goParseFloat (goTrimSpace s)

/-- Evaluation of the range test `val >= min && val <= max` on a parsed
float, with the comparisons on the infinite and NaN values spelled out. -/
def goFloatInRange (f : GoFloat) (mn mx : ℚ) : Bool :=
  match f with
  | .finite q => decide (mn ≤ q) && decide (q ≤ mx)
  | .posInf => false
  | .negInf => false
  | .nan => false

/-! ## Go time model

A reference-layout interpreter for the subset of Go time.Parse and
time.Format chunks reachable from this repository (numeric year, month,
day, hour, minute, second chunks, month and weekday names, meridiem
markers, the common zone chunks and the nine-digit optional fraction).
Rarely used chunks (day of year, free-length fraction runs) are outside
the model; no repository layout uses them.  Minutes above 59 are
rejected rather than normalised. -/

/-- Broken-down result of a successful Go time.Parse. -/
structure GoTime where
  year : Int
  month : Nat
  day : Nat
  hour : Nat
  minute : Nat
  second : Nat
  nsec : Nat
  offSeconds : Int
  zoneName : String
deriving DecidableEq, Repr

/-- Intermediate state while consuming layout chunks. -/
structure DateParseState where
  year : Int := 0
  month : Option Nat := none
  day : Option Nat := none
  hour : Nat := 0
  minute : Nat := 0
  second : Nat := 0
  nsec : Nat := 0
  pmSet : Bool := false
  amSet : Bool := false
  offSeconds : Int := 0
  zoneName : String := ""
deriving DecidableEq, Repr

/-- Go getnum: one or two digits, exactly two when `fixed`. -/
def getNum (fixed : Bool) : List Char → Option (Nat × List Char)
  | c1 :: c2 :: rest =>
      if isDigitChar c1 then
        if isDigitChar c2 then some (digitVal c1 * 10 + digitVal c2, rest)
        else if fixed then none else some (digitVal c1, c2 :: rest)
      else none
  | [c1] =>
      if isDigitChar c1 then
        if fixed then none else some (digitVal c1, [])
      else none
  | [] => none

/-- Exactly four digits (Go stdLongYear). -/
def getNum4 : List Char → Option (Nat × List Char)
  | a :: b :: c :: d :: rest =>
      if isDigitChar a && isDigitChar b && isDigitChar c && isDigitChar d then
        some (digitVal a * 1000 + digitVal b * 100 + digitVal c * 10 + digitVal d, rest)
      else none
  | _ => none

def shortMonthNames : List String :=
  ["Jan", "Feb", "Mar", "Apr", "May", "Jun", "Jul", "Aug", "Sep", "Oct", "Nov", "Dec"]

def longMonthNames : List String :=
  ["January", "February", "March", "April", "May", "June",
   "July", "August", "September", "October", "November", "December"]

def shortDayNames : List String :=
  ["Sun", "Mon", "Tue", "Wed", "Thu", "Fri", "Sat"]

def longDayNames : List String :=
  ["Sunday", "Monday", "Tuesday", "Wednesday", "Thursday", "Friday", "Saturday"]

/-- Case-insensitive table lookup of Go time (first match wins), returning
the zero-based index of the matched name and the unconsumed value. -/
def lookupNameGo (idx : Nat) : List String → List Char → Option (Nat × List Char)
  | [], _ => none
  | n :: rest, v =>
      let nc := n.toList
      if nc.length ≤ v.length ∧ toLowerList (v.take nc.length) = toLowerList nc then
        some (idx, v.drop nc.length)
      else lookupNameGo (idx + 1) rest v

def lookupName (names : List String) (v : List Char) : Option (Nat × List Char) :=
  lookupNameGo 0 names v

/-- Numeric zone offset, sign then two-digit hours and minutes, with a
colon between them when `colon` is set. -/
def dpZoneOffset (colon : Bool) : List Char → Option (Int × List Char)
  | s :: rest =>
      if s = '+' ∨ s = '-' then
        let sgn : Int := if s = '+' then 1 else -1
        match getNum true rest with
        | none => none
        | some (hh, r2) =>
          match (if colon then (match r2 with | ':' :: r => some r | _ => none) else some r2) with
          | none => none
          | some r3 =>
            match getNum true r3 with
            | none => none
            | some (mm, r4) => some (sgn * ((hh : Int) * 3600 + (mm : Int) * 60), r4)
      else none
  | [] => none

/-- Zone abbreviation: a run of three to five capital letters (close
model of Go parseTimeZone); unknown abbreviations get offset zero, as Go
records them with a fabricated zero-offset location. -/
def dpZoneName (v : List Char) : Option (String × List Char) :=
  let u := v.takeWhile (fun c => c.isUpper)
  let rest := v.dropWhile (fun c => c.isUpper)
  if 3 ≤ u.length ∧ u.length ≤ 5 then some (⟨u⟩, rest) else none

/-- Fractional seconds on the value side: a period or comma followed by a
digit run; at most nine digits contribute to the nanosecond count. -/
def dpFraction (v : List Char) : Option (Nat × List Char) :=
  match v with
  | sep :: d :: rest =>
      if (sep = '.' ∨ sep = ',') ∧ isDigitChar d then
        let ds := d :: rest.takeWhile isDigitChar
        let r2 := rest.dropWhile isDigitChar
        let ds9 := ds.take 9
        some (digitsToNat ds9 * 10 ^ (9 - ds9.length), r2)
      else none
  | _ => none

/-- True when the remaining layout starts with a fractional-second chunk,
so that seconds parsing must leave the fraction to that chunk. -/
def layoutHasFracNext : List Char → Bool
  | '.' :: '9' :: _ => true
  | '.' :: '0' :: _ => true
  | _ => false

/-- Seconds followed by the Go leniency: a fractional part in the value
is consumed even when the layout has none. -/
def dpAfterSeconds (lr v : List Char) (st : DateParseState) (s : Nat) :
    DateParseState × List Char :=
  if layoutHasFracNext lr then ({ st with second := s }, v)
  else
    match dpFraction v with
    | some (ns, v2) => ({ st with second := s, nsec := ns }, v2)
    | none => ({ st with second := s }, v)

/-- Chunk-by-chunk interpreter of Go time.Parse: walks the layout,
consuming the value; returns the parse state and the unconsumed value. -/
def dpLoop : List Char → List Char → DateParseState → Option (DateParseState × List Char)
  | [], v, st => some (st, v)
  | '2' :: '0' :: '0' :: '6' :: lr, v, st =>
      match getNum4 v with
      | some (y, v2) => dpLoop lr v2 { st with year := (y : Int) }
      | none => none
  | '0' :: '6' :: lr, v, st =>
      match getNum true v with
      | some (y, v2) =>
          dpLoop lr v2 { st with year := if y ≥ 69 then 1900 + (y : Int) else 2000 + (y : Int) }
      | none => none
  | '0' :: '1' :: lr, v, st =>
      match getNum true v with
      | some (m, v2) => if 1 ≤ m ∧ m ≤ 12 then dpLoop lr v2 { st with month := some m } else none
      | none => none
  | '0' :: '2' :: lr, v, st =>
      match getNum true v with
      | some (d, v2) => dpLoop lr v2 { st with day := some d }
      | none => none
  | '0' :: '3' :: lr, v, st =>
      match getNum true v with
      | some (h, v2) => if h ≤ 12 then dpLoop lr v2 { st with hour := h } else none
      | none => none
  | '0' :: '4' :: lr, v, st =>
      match getNum true v with
      | some (m, v2) => if m < 60 then dpLoop lr v2 { st with minute := m } else none
      | none => none
  | '0' :: '5' :: lr, v, st =>
      match getNum true v with
      | some (s, v2) =>
          if s < 60 then
            match dpAfterSeconds lr v2 st s with
            | (st2, v3) => dpLoop lr v3 st2
          else none
      | none => none
  | '1' :: '5' :: lr, v, st =>
      match getNum false v with
      | some (h, v2) => if h < 24 then dpLoop lr v2 { st with hour := h } else none
      | none => none
  | '1' :: lr, v, st =>
      match getNum false v with
      | some (m, v2) => if 1 ≤ m ∧ m ≤ 12 then dpLoop lr v2 { st with month := some m } else none
      | none => none
  | '2' :: lr, v, st =>
      match getNum false v with
      | some (d, v2) => dpLoop lr v2 { st with day := some d }
      | none => none
  | '3' :: lr, v, st =>
      match getNum false v with
      | some (h, v2) => if h ≤ 12 then dpLoop lr v2 { st with hour := h } else none
      | none => none
  | '4' :: lr, v, st =>
      match getNum false v with
      | some (m, v2) => if m < 60 then dpLoop lr v2 { st with minute := m } else none
      | none => none
  | '5' :: lr, v, st =>
      match getNum false v with
      | some (s, v2) =>
          if s < 60 then
            match dpAfterSeconds lr v2 st s with
            | (st2, v3) => dpLoop lr v3 st2
          else none
      | none => none
  | '_' :: '2' :: lr, v, st =>
      let v1 := match v with | ' ' :: r => r | r => r
      match getNum false v1 with
      | some (d, v2) => dpLoop lr v2 { st with day := some d }
      | none => none
  | 'J' :: 'a' :: 'n' :: 'u' :: 'a' :: 'r' :: 'y' :: lr, v, st =>
      match lookupName longMonthNames v with
      | some (i, v2) => dpLoop lr v2 { st with month := some (i + 1) }
      | none => none
  | 'J' :: 'a' :: 'n' :: lr, v, st =>
      match lookupName shortMonthNames v with
      | some (i, v2) => dpLoop lr v2 { st with month := some (i + 1) }
      | none => none
  | 'M' :: 'o' :: 'n' :: 'd' :: 'a' :: 'y' :: lr, v, st =>
      match lookupName longDayNames v with
      | some (_, v2) => dpLoop lr v2 st
      | none => none
  | 'M' :: 'o' :: 'n' :: lr, v, st =>
      match lookupName shortDayNames v with
      | some (_, v2) => dpLoop lr v2 st
      | none => none
  | 'M' :: 'S' :: 'T' :: lr, v, st =>
      match dpZoneName v with
      | some (nm, v2) => dpLoop lr v2 { st with zoneName := nm, offSeconds := 0 }
      | none => none
  | 'P' :: 'M' :: lr, v, st =>
      match v with
      | 'P' :: 'M' :: v2 => dpLoop lr v2 { st with pmSet := true }
      | 'A' :: 'M' :: v2 => dpLoop lr v2 { st with amSet := true }
      | _ => none
  | 'p' :: 'm' :: lr, v, st =>
      match v with
      | 'p' :: 'm' :: v2 => dpLoop lr v2 { st with pmSet := true }
      | 'a' :: 'm' :: v2 => dpLoop lr v2 { st with amSet := true }
      | _ => none
  | 'Z' :: '0' :: '7' :: ':' :: '0' :: '0' :: lr, v, st =>
      (match v with
       | 'Z' :: v2 => dpLoop lr v2 { st with offSeconds := 0, zoneName := "UTC" }
       | _ =>
         match dpZoneOffset true v with
         | some (off, v2) => dpLoop lr v2 { st with offSeconds := off }
         | none => none)
  | 'Z' :: '0' :: '7' :: '0' :: '0' :: lr, v, st =>
      (match v with
       | 'Z' :: v2 => dpLoop lr v2 { st with offSeconds := 0, zoneName := "UTC" }
       | _ =>
         match dpZoneOffset false v with
         | some (off, v2) => dpLoop lr v2 { st with offSeconds := off }
         | none => none)
  | '-' :: '0' :: '7' :: ':' :: '0' :: '0' :: lr, v, st =>
      (match dpZoneOffset true v with
       | some (off, v2) => dpLoop lr v2 { st with offSeconds := off }
       | none => none)
  | '-' :: '0' :: '7' :: '0' :: '0' :: lr, v, st =>
      (match dpZoneOffset false v with
       | some (off, v2) => dpLoop lr v2 { st with offSeconds := off }
       | none => none)
  | '.' :: '9' :: '9' :: '9' :: '9' :: '9' :: '9' :: '9' :: '9' :: '9' :: lr, v, st =>
      (match dpFraction v with
       | some (ns, v2) => dpLoop lr v2 { st with nsec := ns }
       | none => dpLoop lr v st)
  | '.' :: '9' :: lr, v, st =>
      (match dpFraction v with
       | some (ns, v2) => dpLoop lr v2 { st with nsec := ns }
       | none => dpLoop lr v st)
  | '.' :: '0' :: '0' :: '0' :: lr, v, st =>
      (match dpFraction v with
       | some (ns, v2) => dpLoop lr v2 { st with nsec := ns }
       | none => none)
  | '.' :: '0' :: lr, v, st =>
      (match dpFraction v with
       | some (ns, v2) => dpLoop lr v2 { st with nsec := ns }
       | none => none)
  | c :: lr, v, st =>
      match v with
      | v1 :: vr => if v1 = c then dpLoop lr vr st else none
      | [] => none

def isLeapYear (y : Int) : Bool :=
  y % 4 == 0 && (y % 100 != 0 || y % 400 == 0)

def daysInMonth (m : Nat) (y : Int) : Nat :=
  if m = 2 then (if isLeapYear y then 29 else 28)
  else if m = 4 ∨ m = 6 ∨ m = 9 ∨ m = 11 then 30 else 31

/-- Post-loop work of Go time.Parse: default month and day, validate the
day of the month, apply the meridiem flags. -/
def dpFinalize (st : DateParseState) : Option GoTime :=
  let m := st.month.getD 1
  let d := st.day.getD 1
  if 1 ≤ d ∧ d ≤ daysInMonth m st.year then
    let h :=
      if st.pmSet ∧ st.hour < 12 then st.hour + 12
      else if st.amSet ∧ st.hour = 12 then 0
      else st.hour
    some { year := st.year, month := m, day := d, hour := h, minute := st.minute,
           second := st.second, nsec := st.nsec, offSeconds := st.offSeconds,
           zoneName := st.zoneName }
  else none

/-- Model of Go time.Parse: the whole layout and the whole value must be
consumed. -/
def goTimeParse (layout value : String) : Option GoTime :=
  match dpLoop layout.toList value.toList {} with
  | some (st, []) => dpFinalize st
  | _ => none

/-! ### Formatting -/

def padNum (padChar : Char) (n : Nat) : List Char :=
  if n < 10 then [padChar, Char.ofNat (48 + n)] else (toString n).toList

/-- Four-digit zero-padded year with sign, as Go appendInt with width 4. -/
def pad4Int (y : Int) : List Char :=
  let s := (toString y.natAbs).toList
  let s4 := List.replicate (4 - s.length) '0' ++ s
  if y < 0 then '-' :: s4 else s4

/-- Day of week, 0 for Sunday (Sakamoto); used only to format weekday
names. -/
def dayOfWeek (y : Int) (m d : Nat) : Nat :=
  let tt : List Int := [0, 3, 2, 5, 0, 3, 5, 1, 4, 6, 2, 4]
  let y2 := if m < 3 then y - 1 else y
  (((y2 + y2 / 4 - y2 / 100 + y2 / 400 + tt.getD (m - 1) 0 + (d : Int)) % 7).natAbs) % 7

def hour12Of (h : Nat) : Nat :=
  if h % 12 = 0 then 12 else h % 12

def formatOffset (colon : Bool) (off : Int) : List Char :=
  let a := off.natAbs
  let sgn : Char := if off < 0 then '-' else '+'
  let hh := padNum '0' (a / 3600)
  let mm := padNum '0' ((a % 3600) / 60)
  if colon then sgn :: hh ++ ':' :: mm else sgn :: hh ++ mm

def nineDigits (n : Nat) : List Char :=
  let s := (toString n).toList
  List.replicate (9 - s.length) '0' ++ s

def dropTrailingZeros (cs : List Char) : List Char :=
  (cs.reverse.dropWhile (fun c => c = '0')).reverse

/-- Chunk-by-chunk interpreter of Go time.Format over the same chunk set
as the parser. -/
def dfLoop (t : GoTime) : List Char → List Char
  | [] => []
  | '2' :: '0' :: '0' :: '6' :: lr => pad4Int t.year ++ dfLoop t lr
  | '0' :: '6' :: lr => padNum '0' (t.year.natAbs % 100) ++ dfLoop t lr
  | '0' :: '1' :: lr => padNum '0' t.month ++ dfLoop t lr
  | '0' :: '2' :: lr => padNum '0' t.day ++ dfLoop t lr
  | '0' :: '3' :: lr => padNum '0' (hour12Of t.hour) ++ dfLoop t lr
  | '0' :: '4' :: lr => padNum '0' t.minute ++ dfLoop t lr
  | '0' :: '5' :: lr => padNum '0' t.second ++ dfLoop t lr
  | '1' :: '5' :: lr => padNum '0' t.hour ++ dfLoop t lr
  | '1' :: lr => (toString t.month).toList ++ dfLoop t lr
  | '2' :: lr => (toString t.day).toList ++ dfLoop t lr
  | '3' :: lr => (toString (hour12Of t.hour)).toList ++ dfLoop t lr
  | '4' :: lr => (toString t.minute).toList ++ dfLoop t lr
  | '5' :: lr => (toString t.second).toList ++ dfLoop t lr
  | '_' :: '2' :: lr => padNum ' ' t.day ++ dfLoop t lr
  | 'J' :: 'a' :: 'n' :: 'u' :: 'a' :: 'r' :: 'y' :: lr =>
      ((longMonthNames.getD (t.month - 1) "").toList) ++ dfLoop t lr
  | 'J' :: 'a' :: 'n' :: lr =>
      ((shortMonthNames.getD (t.month - 1) "").toList) ++ dfLoop t lr
  | 'M' :: 'o' :: 'n' :: 'd' :: 'a' :: 'y' :: lr =>
      ((longDayNames.getD (dayOfWeek t.year t.month t.day) "").toList) ++ dfLoop t lr
  | 'M' :: 'o' :: 'n' :: lr =>
      ((shortDayNames.getD (dayOfWeek t.year t.month t.day) "").toList) ++ dfLoop t lr
  | 'M' :: 'S' :: 'T' :: lr =>
      (if t.zoneName ≠ "" then t.zoneName.toList else formatOffset false t.offSeconds) ++ dfLoop t lr
  | 'P' :: 'M' :: lr => (if t.hour ≥ 12 then ['P', 'M'] else ['A', 'M']) ++ dfLoop t lr
  | 'p' :: 'm' :: lr => (if t.hour ≥ 12 then ['p', 'm'] else ['a', 'm']) ++ dfLoop t lr
  | 'Z' :: '0' :: '7' :: ':' :: '0' :: '0' :: lr =>
      (if t.offSeconds = 0 then ['Z'] else formatOffset true t.offSeconds) ++ dfLoop t lr
  | 'Z' :: '0' :: '7' :: '0' :: '0' :: lr =>
      (if t.offSeconds = 0 then ['Z'] else formatOffset false t.offSeconds) ++ dfLoop t lr
  | '-' :: '0' :: '7' :: ':' :: '0' :: '0' :: lr => formatOffset true t.offSeconds ++ dfLoop t lr
  | '-' :: '0' :: '7' :: '0' :: '0' :: lr => formatOffset false t.offSeconds ++ dfLoop t lr
  | '.' :: '9' :: '9' :: '9' :: '9' :: '9' :: '9' :: '9' :: '9' :: '9' :: lr =>
      (if t.nsec = 0 then [] else '.' :: dropTrailingZeros (nineDigits t.nsec)) ++ dfLoop t lr
  | '.' :: '9' :: lr =>
      (if t.nsec = 0 then [] else '.' :: dropTrailingZeros (nineDigits t.nsec)) ++ dfLoop t lr
  | '.' :: '0' :: '0' :: '0' :: lr => '.' :: (nineDigits t.nsec).take 3 ++ dfLoop t lr
  | '.' :: '0' :: lr => '.' :: (nineDigits t.nsec).take 1 ++ dfLoop t lr
  | c :: lr => c :: dfLoop t lr

/-- Model of Go t.Format(layout). -/
def goTimeFormat (t : GoTime) (layout : String) : String :=
  ⟨dfLoop t layout.toList⟩

/-! ### Layout lists of the repository -/

def rfc3339Layout : String := "2006-01-02T15:04:05Z07:00"

def rfc3339NanoLayout : String := "2006-01-02T15:04:05.999999999Z07:00"

def rfc1123Layout : String := "Mon, 02 Jan 2006 15:04:05 MST"

def rfc1123ZLayout : String := "Mon, 02 Jan 2006 15:04:05 -0700"

def rfc822Layout : String := "02 Jan 06 15:04 MST"

def rfc822ZLayout : String := "02 Jan 06 15:04 -0700"

def ansicLayout : String := "Mon Jan _2 15:04:05 2006"

def unixDateLayout : String := "Mon Jan _2 15:04:05 MST 2006"

def rubyDateLayout : String := "Mon Jan 02 15:04:05 -0700 2006"

/-- Layouts that the sequential CleanDates tries, in source order: RFC3339
first, then the three hard-coded fallbacks.  The caller layout is not in
this list. -/
def seqCleanDatesLayouts : List String :=
  [rfc3339Layout, "2006-01-02", "02/01/2006", "01/02/2006"]

/-- Layout list of the utils parseDate helper: the caller layout first,
then the fixed fallback list, in source order. -/
def parseDateLayouts (layout : String) : List String :=
  [layout,
   "2006-01-02", "2006/01/02", "02-01-2006", "02/01/2006", "01-02-2006", "01/02/2006",
   "2006-01-02 15:04:05", "2006/01/02 15:04:05", "02-01-2006 15:04:05",
   "02/01/2006 15:04:05", "01-02-2006 15:04:05", "01/02/2006 15:04:05",
   rfc3339Layout, rfc3339NanoLayout, rfc1123Layout, rfc1123ZLayout,
   rfc822Layout, rfc822ZLayout, ansicLayout, unixDateLayout, rubyDateLayout]

/-- First layout in the list that parses wins. -/
def firstParse (layouts : List String) (s : String) : Option GoTime :=
  match layouts with
  | [] => none
  | l :: rest =>
      match goTimeParse l s with
      | some t => some t
      | none => firstParse rest s

/-- Model of the utils parseDate helper. -/
def goParseDate (s layout : String) : Option GoTime :=
  firstParse (parseDateLayouts layout) s

/-! ## Data model -/

/-- Coarse column type tags of the DataFrame. -/
inductive GoType where
  | typeString
  | typeInt
  | typeFloat
  | typeDate
  | typeBool
  | typeJSON
deriving DecidableEq, Repr

/-- The DataFrame: ordered headers, row grid, and the column type map
(a Go map modelled as a partial function, which keeps the unordered map
semantics). -/
structure DataFrame where
  Headers : List String
  Data : List (List String)
  Types : String → Option GoType

/-- Error taxonomy of the operations, one constructor per Go error
message shape. -/
inductive DFError where
  | emptyHeaders
  | shapeMismatch (rowIdx actual expected : Nat)
  | columnNotFound (column : String)
  | columnAlreadyExists (column : String)
  | noNewColumns
  | invalidRegex
  | dateParseFailure (rowIdx : Nat) (column : String) (value : String)
  | conversionError (value : String)
  | batchMissing (idx : Nat)
deriving DecidableEq, Repr

/-- Rectangularity invariant: every row is as wide as the header list. -/
def DataFrame.WF (df : DataFrame) : Prop :=
  ∀ row ∈ df.Data, row.length = df.Headers.length

instance (df : DataFrame) : Decidable df.WF := by
  unfold DataFrame.WF; infer_instance

/-- Position of the first list element equal to `column`, written as the
Go loop of getColumnIndex walks the header slice. -/
def colIdxFrom (column : String) : List String → Option Nat
  | [] => none
  | h :: rest => if h = column then some 0 else (colIdxFrom column rest).map (· + 1)

/-- First header equal to the column name (Go getColumnIndex returns -1
for no match, modelled as `none`). -/
def getColumnIndex (df : DataFrame) (column : String) : Option Nat :=
  colIdxFrom column df.Headers

/-- Width check of NewDataFrame: index and width of the first row whose
width differs from the expected one. -/
def checkRows (expected : Nat) : Nat → List (List String) → Option (Nat × Nat)
  | _, [] => none
  | i, r :: rs => if r.length ≠ expected then some (i, r.length) else checkRows expected (i + 1) rs

/-- Model of NewDataFrame: empty headers and row-width mismatches are
rejected; all column types default to string. -/
def newDataFrame (headers : List String) (data : List (List String)) : Except DFError DataFrame :=
  if headers = [] then .error .emptyHeaders
  else
    match checkRows headers.length 0 data with
    | some (i, w) => .error (.shapeMismatch i w headers.length)
    | none =>
        .ok { Headers := headers, Data := data,
              Types := fun h => if h ∈ headers then some .typeString else none }

/-! ## Sequential operation set

Each operation returns the receiver state after the call (Go mutates the
receiver in place) together with the error; on success Go returns the
receiver itself.  Cell access `row[colIndex]` is modelled with a default
empty string; the claims quantify over well-formed tables, where the
index is always in bounds. -/

/-- Row access `df.Data[i]` of the Go code. -/
def rowAt (data : List (List String)) (i : Nat) : List String := data.getD i []

/-- Cell access `row[colIndex]` of the Go code. -/
def cellAt (ci : Nat) (row : List String) : String := row.getD ci ""

def trimColumns (df : DataFrame) : DataFrame :=
  { df with Data := df.Data.map (fun row => row.map goTrimSpace) }

def replaceNulls (df : DataFrame) (column defaultValue : String) : DataFrame × Option DFError :=
  match getColumnIndex df column with
  | none => (df, some (.columnNotFound column))
  | some ci =>
      ({ df with Data := df.Data.map (fun row =>
          if cellAt ci row = "" then row.set ci defaultValue else row) }, none)

def normalizeCase (df : DataFrame) (column : String) (toUpper : Bool) :
    DataFrame × Option DFError :=
  match getColumnIndex df column with
  | none => (df, some (.columnNotFound column))
  | some ci =>
      ({ df with Data := df.Data.map (fun row =>
          row.set ci (if toUpper then goToUpper (cellAt ci row) else goToLower (cellAt ci row))) },
       none)

/-- CleanWithRegex with the compiled regex abstracted: `compiled` is
`none` when regexp.Compile fails, otherwise the ReplaceAllString
function of the compiled pattern.  The claims about this operation only
concern its cell-wise shape, not the regex language. -/
def cleanWithRegex (df : DataFrame) (column : String) (compiled : Option (String → String)) :
    DataFrame × Option DFError :=
  match getColumnIndex df column with
  | none => (df, some (.columnNotFound column))
  | some ci =>
      match compiled with
      | none => (df, some .invalidRegex)
      | some re =>
          ({ df with Data := df.Data.map (fun row => row.set ci (re (cellAt ci row))) }, none)

def renameColumn (df : DataFrame) (oldName newName : String) : DataFrame × Option DFError :=
  match getColumnIndex df oldName with
  | none => (df, some (.columnNotFound oldName))
  | some ci =>
      if (getColumnIndex df newName).isSome then (df, some (.columnAlreadyExists newName))
      else
        let newTypes : String → Option GoType :=
          match df.Types oldName with
          | some t => fun h => if h = newName then some t else if h = oldName then none else df.Types h
          | none => df.Types
        ({ df with Headers := df.Headers.set ci newName, Types := newTypes }, none)

/-- Replacement of the element at `ci` by the list `repl`, as the Go
append loop of SplitColumn does for both headers and rows. -/
def replaceAt : Nat → List String → List String → List String
  | _, _, [] => []
  | 0, repl, _ :: rest => repl ++ rest
  | n + 1, repl, c :: rest => c :: replaceAt n repl rest

/-- Model of Go strings.Split: empty separator splits into runes. -/
def goSplit (s sep : String) : List String :=
  if sep = "" then s.toList.map (fun c => ⟨[c]⟩) else s.splitOn sep

/-- First `k` split parts, missing parts made empty, excess dropped. -/
def padParts (k : Nat) (parts : List String) : List String :=
  (List.range k).map (fun j => parts.getD j "")

def splitColumn (df : DataFrame) (column separator : String) (newColumns : List String) :
    DataFrame × Option DFError :=
  match getColumnIndex df column with
  | none => (df, some (.columnNotFound column))
  | some ci =>
      if newColumns = [] then (df, some .noNewColumns)
      else
        match newColumns.find? (fun nc => (getColumnIndex df nc).isSome) with
        | some nc => (df, some (.columnAlreadyExists nc))
        | none =>
            let newHeaders := replaceAt ci newColumns df.Headers
            let newData := df.Data.map (fun row =>
              replaceAt ci (padParts newColumns.length (goSplit (cellAt ci row) separator)) row)
            let newTypes : String → Option GoType := fun h =>
              if h ∈ newColumns then some .typeString
              else if h = column then none
              else df.Types h
            ({ Headers := newHeaders, Data := newData, Types := newTypes }, none)

/-- Row loop of the sequential CleanDates: on the first non-empty cell
that no layout parses, stop with the relative row index and the raw
value, leaving that row and the following ones untouched; otherwise
rewrite the cell to Format(layout). -/
def cleanDatesLoop (ci : Nat) (layout : String) :
    List (List String) → List (List String) × Option (Nat × String)
  | [] => ([], none)
  | row :: rest =>
      let cell := cellAt ci row
      if cell = "" then
        match cleanDatesLoop ci layout rest with
        | (rs, e) => (row :: rs, e.map (fun p => (p.1 + 1, p.2)))
      else
        match firstParse seqCleanDatesLayouts cell with
        | none => (row :: rest, some (0, cell))
        | some t =>
            match cleanDatesLoop ci layout rest with
            | (rs, e) => (row.set ci (goTimeFormat t layout) :: rs, e.map (fun p => (p.1 + 1, p.2)))

def cleanDates (df : DataFrame) (column layout : String) : DataFrame × Option DFError :=
  match getColumnIndex df column with
  | none => (df, some (.columnNotFound column))
  | some ci =>
      match cleanDatesLoop ci layout df.Data with
      | (d2, some p) => ({ df with Data := d2 }, some (.dateParseFailure p.1 column p.2))
      | (d2, none) =>
          let newTypes : String → Option GoType :=
            fun h => if h = column then some GoType.typeDate else df.Types h
          ({ df with Data := d2, Types := newTypes }, none)

/-- Keep decision of the sequential FilterOutliers on one cell: empty
cells are kept, a failed raw strconv.ParseFloat is a hard error, parsed
values are kept iff inside the closed range. -/
def seqKeepCell (mn mx : ℚ) (cell : String) : Option Bool :=
  if cell = "" then some true
  else
    match goParseFloat cell with
    | none => none
    | some f => some (goFloatInRange f mn mx)

def filterLoop (ci : Nat) (mn mx : ℚ) : List (List String) → Except String (List (List String))
  | [] => .ok []
  | row :: rest =>
      match seqKeepCell mn mx (cellAt ci row) with
      | none => .error (cellAt ci row)
      | some true =>
          (match filterLoop ci mn mx rest with
           | .error e => .error e
           | .ok rs => .ok (row :: rs))
      | some false => filterLoop ci mn mx rest

/-- Sequential FilterOutliers: the row grid is replaced by the kept
subsequence only when no conversion failed; a failure leaves the
receiver untouched and aborts. -/
def filterOutliers (df : DataFrame) (column : String) (mn mx : ℚ) : DataFrame × Option DFError :=
  match getColumnIndex df column with
  | none => (df, some (.columnNotFound column))
  | some ci =>
      match filterLoop ci mn mx df.Data with
      | .error v => (df, some (.conversionError v))
      | .ok rows => ({ df with Data := rows }, none)

/-! ## Parallel execution framework

Result arrival order through the result channel is nondeterministic; it
is modelled by an explicit `arrival` list, universally quantified in the
theorems and constrained to be a permutation of the row (or processor)
indices.  Worker count does not influence the collected results and is
not part of the model. -/

/-- Index-keyed reassembly: results written into the slot named by their
index, in arrival order (Go: newData[r.index] = r.row). -/
def scatter {α : Type} (f : Nat → α) (arrival : List Nat) (init : List α) : List α :=
  arrival.foldl (fun acc j => acc.set j (f j)) init

/-- Row-parallel driver: one job per row, reassembled by row index into
a fresh slice that replaces the receiver row grid. -/
def parallelizeRows (df : DataFrame) (processor : List String → List String)
    (arrival : List Nat) : DataFrame :=
  if df.Data = [] then df
  else
    let newData :=
      scatter (fun j => processor (rowAt df.Data j)) arrival
        (List.replicate df.Data.length [])
    { df with Data := newData }

/-- Cell-parallel driver.  Go sends one job per (row, selected column)
pair mutating a shared row slice; with the single target column used by
every public operation each row receives exactly one job, modelled here
as one result per row applying the processor for each selected column.
The initial slice is a copy of the row grid. -/
def parallelizeColumns (df : DataFrame) (columnIndices : List Nat)
    (processor : List String → Nat → List String) (arrival : List Nat) : DataFrame :=
  if df.Data = [] then df
  else
    let indices := columnIndices.filter (fun i => i < df.Headers.length)
    if indices = [] then df
    else
      let newData :=
        scatter (fun j => indices.foldl (fun row ci => processor row ci) (rowAt df.Data j))
          arrival df.Data
      { df with Data := newData }

def trimColumnsParallel (df : DataFrame) (arrival : List Nat) : DataFrame :=
  parallelizeRows df (fun row => row.map goTrimSpace) arrival

/-- Worker body of CleanDatesParallel on one cell: a cell that parseDate
rejects keeps its original value; there is no per-cell error path. -/
def cleanDateProc (layout : String) (row : List String) (colIdx : Nat) : List String :=
  if cellAt colIdx row = "" then row
  else
    match goParseDate (cellAt colIdx row) layout with
    | none => row
    | some t => row.set colIdx (goTimeFormat t layout)

/-- Parallel date cleaner. -/
def cleanDatesParallel (df : DataFrame) (column layout : String) (arrival : List Nat) :
    Except DFError DataFrame :=
  match getColumnIndex df column with
  | none => .error (.columnNotFound column)
  | some ci => .ok (parallelizeColumns df [ci] (cleanDateProc layout) arrival)

/-- Keep decision of a FilterOutliersParallel worker: empty cells kept,
cells whose trimmed text fails to parse kept (the worker reports keep
rather than an error), parsed values kept iff inside the range. -/
def pKeepCell (mn mx : ℚ) (cell : String) : Bool :=
  if cell = "" then true
  else
    match utilParseFloat cell with
    | none => true
    | some f => goFloatInRange f mn mx

/-- Parallel filter: kept rows are accumulated in result arrival order
into a fresh DataFrame; the receiver is left as it was (the first
component is the receiver state after the call). -/
def filterOutliersParallel (df : DataFrame) (column : String) (mn mx : ℚ)
    (arrival : List Nat) : DataFrame × Except DFError DataFrame :=
  match getColumnIndex df column with
  | none => (df, .error (.columnNotFound column))
  | some ci =>
      let filtered := (arrival.filter
          (fun i => pKeepCell mn mx (cellAt ci (rowAt df.Data i)))).map
        (fun i => rowAt df.Data i)
      (df, .ok { Headers := df.Headers, Data := filtered, Types := df.Types })

/-- Model of DataFrame.Copy: headers, rows and type map rebuilt entry by
entry. -/
def DataFrame.copy (df : DataFrame) : DataFrame :=
  { Headers := [] ++ df.Headers,
    Data := df.Data.map (fun row => row.map (fun c => c)),
    Types := fun k => df.Types k }

/-- Drain of the batch result channel in arrival order: the first error
aborts, otherwise the results are collected keyed by processor index. -/
def collectBatch : List (Nat × Except DFError DataFrame) →
    Except DFError (List (Nat × DataFrame))
  | [] => .ok []
  | (_, .error e) :: _ => .error e
  | (i, .ok d) :: rest =>
      match collectBatch rest with
      | .error e => .error e
      | .ok m => .ok ((i, d) :: m)

/-- Final loop of BatchProcessParallel: walk processor indices in order,
require every result present, keep only the last one. -/
def pickLast (m : List (Nat × DataFrame)) (start : DataFrame) (n : Nat) :
    Except DFError DataFrame :=
  (List.range n).foldl
    (fun acc i =>
      match acc with
      | .error e => .error e
      | .ok _ =>
          match m.lookup i with
          | none => .error (.batchMissing i)
          | some d => .ok d)
    (.ok start)

/-- Result stream of the batch workers: each job applies its processor
to a fresh copy of the receiver and reports with its index. -/
def batchResults (df : DataFrame)
    (processors : List (DataFrame → Except DFError DataFrame)) (arrival : List Nat) :
    List (Nat × Except DFError DataFrame) :=
  arrival.map (fun i => (i, (processors.getD i (fun d => .ok d)) df.copy))

/-- Driver tail of the batch combinator after the results are drained. -/
def batchFinish (df : DataFrame)
    (processors : List (DataFrame → Except DFError DataFrame))
    (c : Except DFError (List (Nat × DataFrame))) : DataFrame × Except DFError DataFrame :=
  match c with
  | .error e => (df, .error e)
  | .ok m => (df, pickLast m df.copy processors.length)

/-- Batch combinator: every processor runs on its own copy of the
receiver; any error fails the whole call; on success only the output of
the last processor survives.  The receiver itself is never written. -/
def batchProcessParallel (df : DataFrame)
    (processors : List (DataFrame → Except DFError DataFrame)) (arrival : List Nat) :
    DataFrame × Except DFError DataFrame :=
  if processors.isEmpty then (df, .ok df)
  else batchFinish df processors (collectBatch (batchResults df processors arrival))

/-! ## The claim C2 reading of CleanDates

Definition following the words of the specification sentence (caller
layout tried first, then the fixed fallback list), used only to be
compared against the source-translated `cleanDates`. -/

/-- Row loop of the specification reading: identical to `cleanDatesLoop`
except that the ordered layout list starts with the caller layout. -/
def cleanDatesSpecLoop (ci : Nat) (layout : String) :
    List (List String) → List (List String) × Option (Nat × String)
  | [] => ([], none)
  | row :: rest =>
      let cell := cellAt ci row
      if cell = "" then
        match cleanDatesSpecLoop ci layout rest with
        | (rs, e) => (row :: rs, e.map (fun p => (p.1 + 1, p.2)))
      else
        match firstParse (layout :: seqCleanDatesLayouts) cell with
        | none => (row :: rest, some (0, cell))
        | some t =>
            match cleanDatesSpecLoop ci layout rest with
            | (rs, e) => (row.set ci (goTimeFormat t layout) :: rs, e.map (fun p => (p.1 + 1, p.2)))

/-- CleanDates as the specification describes it: the caller layout is
consulted first when parsing. -/
def cleanDatesSpec (df : DataFrame) (column layout : String) : DataFrame × Option DFError :=
  match getColumnIndex df column with
  | none => (df, some (.columnNotFound column))
  | some ci =>
      match cleanDatesSpecLoop ci layout df.Data with
      | (d2, some p) => ({ df with Data := d2 }, some (.dateParseFailure p.1 column p.2))
      | (d2, none) =>
          let newTypes : String → Option GoType :=
            fun h => if h = column then some GoType.typeDate else df.Types h
          ({ df with Data := d2, Types := newTypes }, none)

/-! ## Derived forms and concrete tables used by the theorems -/

/-- Per-row effect of one sequential CleanDates step on the non-failing
path. -/
def cleanDatesRow (ci : Nat) (layout : String) (row : List String) : List String :=
  let cell := cellAt ci row
  if cell = "" then row
  else
    match firstParse seqCleanDatesLayouts cell with
    | some t => row.set ci (goTimeFormat t layout)
    | none => row

/-- Row grid of a parallel result, `none` on the error branch. -/
def exceptData : Except DFError DataFrame → Option (List (List String))
  | .ok r => some r.Data
  | .error _ => none

/-- Payload of a successful batch result with an explicit fallback. -/
def exceptD (e : Except DFError DataFrame) (fallback : DataFrame) : DataFrame :=
  match e with
  | .ok d => d
  | .error _ => fallback

/-- Empty type map shared by the concrete tables below. -/
def typesNone : String → Option GoType := fun _ => none

/-- One non-numeric cell: FilterOutliersParallel keeps it. -/
def dfConvCE : DataFrame := { Headers := ["A"], Data := [["abc"]], Types := typesNone }

/-- One cell parseable under output layout 2006 but under none of the
four layouts the sequential CleanDates really tries. -/
def dfLayoutCE : DataFrame := { Headers := ["D"], Data := [["1990"]], Types := typesNone }

/-- One empty cell, for ReplaceNulls with the empty replacement value. -/
def dfNullCE : DataFrame := { Headers := ["A"], Data := [[""]], Types := typesNone }

/-- Concrete scenario table of the specification: a value already in the
output layout. -/
def dfBirth : DataFrame := { Headers := ["BirthDate"], Data := [["1990-01-15"]], Types := typesNone }

/-- Salary table of the specification scenario and the repository tests. -/
def dfSalary : DataFrame :=
  { Headers := ["Name", "Age", "Salary"],
    Data := [["Ali", "30", "5000"], ["Ayse", "25", "4500"], ["Mehmet", "40", "15000"],
             ["Zeynep", "35", "6000"], ["Can", "28", "1000"]],
    Types := typesNone }

/-- Birth-date table with one unparseable value, as in the repository
tests. -/
def dfDatesW : DataFrame :=
  { Headers := ["Name", "Birth Date"],
    Data := [["Ali", "1990-01-15"], ["Can", "invalid-date"], ["Ayse", "1995-05-20"]],
    Types := typesNone }

/-- Table with padded cells, as in the repository trim tests. -/
def dfTrimW : DataFrame :=
  { Headers := ["Name", "Age"],
    Data := [["  Ali  ", " 30 "], ["Ayse  ", "25"]],
    Types := typesNone }

/-- Two error-free processors for exercising the batch combinator. -/
def procsW : List (DataFrame → Except DFError DataFrame) :=
  [fun d => .ok (trimColumns d), fun d => .ok d]

/-! ## List helpers -/

lemma getD_set_self {α : Type} (l : List α) (i : Nat) (x d : α) (h : i < l.length) :
    (l.set i x).getD i d = x := by
  rw [List.getD_eq_getElem?_getD, List.getElem?_set_self h]
  rfl

lemma getD_set_ne {α : Type} (l : List α) (i j : Nat) (x d : α) (h : i ≠ j) :
    (l.set i x).getD j d = l.getD j d := by
  rw [List.getD_eq_getElem?_getD, List.getElem?_set_ne h, ← List.getD_eq_getElem?_getD]

lemma scatter_cons {α : Type} (f : Nat → α) (a : Nat) (l : List Nat) (init : List α) :
    scatter f (a :: l) init = scatter f l (init.set a (f a)) := rfl

lemma scatter_length {α : Type} (f : Nat → α) (arrival : List Nat) (init : List α) :
    (scatter f arrival init).length = init.length := by
  induction arrival generalizing init with
  | nil => rfl
  | cons a l ih => rw [scatter_cons, ih, List.length_set]

lemma scatter_getD_not_mem {α : Type} (f : Nat → α) (arrival : List Nat) (init : List α)
    (j : Nat) (d : α) (h : j ∉ arrival) :
    (scatter f arrival init).getD j d = init.getD j d := by
  induction arrival generalizing init with
  | nil => rfl
  | cons a l ih =>
      have h2a : j ≠ a := fun e => h (e ▸ List.mem_cons_self a l)
      have h2b : j ∉ l := fun e => h (List.mem_cons_of_mem a e)
      rw [scatter_cons, ih (init.set a (f a)) h2b,
        getD_set_ne _ _ _ _ _ (fun e => h2a e.symm)]

lemma scatter_getD_mem {α : Type} (f : Nat → α) (arrival : List Nat) (init : List α)
    (j : Nat) (d : α) (hnd : arrival.Nodup) (hj : j ∈ arrival) (hlt : j < init.length) :
    (scatter f arrival init).getD j d = f j := by
  induction arrival generalizing init with
  | nil => cases hj
  | cons a l ih =>
      rw [scatter_cons]
      rcases List.mem_cons.mp hj with rfl | hjl
      · have hnl : j ∉ l := (List.nodup_cons.mp hnd).1
        rw [scatter_getD_not_mem _ _ _ _ _ hnl, getD_set_self _ _ _ _ hlt]
      · exact ih (init.set a (f a)) (List.nodup_cons.mp hnd).2 hjl
          (by rw [List.length_set]; exact hlt)

lemma scatter_eq_map {α : Type} (f : Nat → α) (arrival : List Nat) (init : List α) (n : Nat)
    (hp : arrival.Perm (List.range n)) (hlen : init.length = n) :
    scatter f arrival init = (List.range n).map f := by
  have hnd : arrival.Nodup := hp.symm.nodup (List.nodup_range n)
  apply List.ext_getElem
  · rw [scatter_length, hlen, List.length_map, List.length_range]
  · intro i h1 h2
    have hi : i < n := by simpa using h2
    have hmem : i ∈ arrival := hp.mem_iff.mpr (List.mem_range.mpr hi)
    have hlt : i < init.length := by rw [hlen]; exact hi
    have hD := scatter_getD_mem f arrival init i (f i) hnd hmem hlt
    rw [List.getD_eq_getElem _ _ h1] at hD
    rw [hD, List.getElem_map, List.getElem_range]

lemma range_map_getD {α β : Type} (l : List α) (d : α) (g : α → β) :
    (List.range l.length).map (fun j => g (l.getD j d)) = l.map g := by
  induction l with
  | nil => rfl
  | cons a t ih =>
      rw [List.length_cons, List.range_succ_eq_map, List.map_cons, List.map_map]
      have h1 : (fun j => g ((a :: t).getD j d)) ∘ Nat.succ = fun j => g (t.getD j d) := rfl
      rw [h1, ih]
      rfl

lemma range_filter_map_getD {α : Type} (l : List α) (d : α) (q : α → Bool) :
    ((List.range l.length).filter (fun j => q (l.getD j d))).map (fun j => l.getD j d) =
      l.filter q := by
  induction l with
  | nil => rfl
  | cons a t ih =>
      rw [List.length_cons, List.range_succ_eq_map, List.filter_cons]
      have hcomp : ((fun j => q ((a :: t).getD j d)) ∘ Nat.succ) = fun j => q (t.getD j d) := rfl
      have hmap : (fun j => (a :: t).getD j d) ∘ Nat.succ = fun j => t.getD j d := rfl
      cases hqa : q a with
      | true =>
          simp only [List.getD_cons_zero, hqa, if_true]
          rw [List.filter_map, List.map_cons, List.map_map, hcomp, hmap]
          simp only [List.getD_cons_zero, List.filter_cons, hqa, ih]
          simp
      | false =>
          simp only [List.getD_cons_zero, hqa, if_false, Bool.false_eq_true]
          rw [List.filter_map, List.map_map, hcomp, hmap]
          simp only [List.filter_cons, hqa, ih, Bool.false_eq_true, if_false]

lemma colIdxFrom_lt (column : String) (hs : List String) (ci : Nat)
    (h : colIdxFrom column hs = some ci) : ci < hs.length := by
  induction hs generalizing ci with
  | nil => cases h
  | cons hd rest ih =>
      by_cases h0 : hd = column
      · simp [colIdxFrom, h0] at h
        simp only [List.length_cons]
        omega
      · simp only [colIdxFrom, h0, if_false, Option.map_eq_some'] at h
        obtain ⟨cj, hcj, rfl⟩ := h
        have := ih cj hcj
        simp only [List.length_cons]
        omega

lemma colIdxFrom_get (column : String) (hs : List String) (ci : Nat)
    (h : colIdxFrom column hs = some ci) : hs.getD ci "" = column := by
  induction hs generalizing ci with
  | nil => cases h
  | cons hd rest ih =>
      by_cases h0 : hd = column
      · simp [colIdxFrom, h0] at h
        subst h
        simpa using h0
      · simp only [colIdxFrom, h0, if_false, Option.map_eq_some'] at h
        obtain ⟨cj, hcj, rfl⟩ := h
        simpa using ih cj hcj

lemma getColumnIndex_lt (df : DataFrame) (column : String) (ci : Nat)
    (h : getColumnIndex df column = some ci) : ci < df.Headers.length :=
  colIdxFrom_lt column df.Headers ci h

lemma firstParse_eq_none_iff (layouts : List String) (s : String) :
    firstParse layouts s = none ↔ ∀ l ∈ layouts, goTimeParse l s = none := by
  induction layouts with
  | nil => simp [firstParse]
  | cons l rest ih =>
      simp only [firstParse, List.mem_cons]
      cases hl : goTimeParse l s with
      | some t =>
          constructor
          · intro h; cases h
          · intro h
            have := h l (Or.inl rfl)
            rw [hl] at this; cases this
      | none =>
          rw [ih]
          constructor
          · intro h x hx
            rcases hx with rfl | hx
            · exact hl
            · exact h x hx
          · intro h x hx
            exact h x (Or.inr hx)

/-! ## Accepted float literals contain no white space

The parallel filter parses trimmed cells while the sequential filter
parses raw cells; on cells the sequential parse accepts the two agree
because an accepted literal has no white space to trim. -/

lemma isGoSpace_toLower (c : Char) (h : isGoSpace c = true) : c.toLower = c := by
  have hn : ¬(c.toNat ≥ 65 ∧ c.toNat ≤ 90) := by
    simp only [isGoSpace, decide_eq_true_eq] at h
    rcases h with h | h | h | h | h | h | h | h | h | h | h | h | h | h | h <;> omega
  unfold Char.toLower
  simp [hn]

lemma isGoSpace_false_of_digit (c : Char) (h : isDigitChar c = true) : isGoSpace c = false := by
  simp only [isDigitChar, decide_eq_true_eq] at h
  simp only [isGoSpace, decide_eq_false_iff_not]
  push_neg
  refine ⟨by omega, by omega, by omega, by omega, by omega, by omega, by omega, by omega,
    by omega, fun h2 => by omega, by omega, by omega, by omega, by omega, by omega⟩

lemma nospace_of_toLower_list (rest pats : List Char)
    (hmap : toLowerList rest = pats) (hp : ∀ p ∈ pats, isGoSpace p = false) :
    ∀ c ∈ rest, isGoSpace c = false := by
  intro c hc
  by_contra hcon
  have hsp : isGoSpace c = true := by
    cases hb : isGoSpace c
    · exact absurd hb hcon
    · rfl
  have ht : c.toLower ∈ pats := by
    rw [← hmap]
    exact List.mem_map_of_mem Char.toLower hc
  rw [isGoSpace_toLower c hsp] at ht
  rw [hp c ht] at hsp
  cases hsp

lemma pfMantissa_chars (cs : List Char) (m : ℚ) (r1 : List Char)
    (h : pfMantissa cs = some (m, r1)) :
    ∀ c ∈ cs, isDigitChar c = true ∨ c = '.' ∨ c ∈ r1 := by
  intro c hc
  have hsplit : cs.takeWhile isDigitChar ++ cs.dropWhile isDigitChar = cs :=
    List.takeWhile_append_dropWhile _ _
  rcases List.mem_append.mp (by rw [hsplit]; exact hc) with htk | hdw
  · exact Or.inl (List.mem_takeWhile_imp htk)
  · unfold pfMantissa at h
    split at h
    · next hhead =>
        cases hdrop : cs.dropWhile isDigitChar with
        | nil => rw [hdrop] at hhead; cases hhead
        | cons d r2 =>
            rw [hdrop] at hhead hdw h
            simp only [List.head?_cons, Option.some.injEq] at hhead
            subst hhead
            rcases List.mem_cons.mp hdw with rfl | hr2
            · exact Or.inr (Or.inl rfl)
            · have hsplit2 : r2.takeWhile isDigitChar ++ r2.dropWhile isDigitChar = r2 :=
                List.takeWhile_append_dropWhile _ _
              rcases List.mem_append.mp (by rw [hsplit2]; exact hr2) with htk2 | hdw2
              · exact Or.inl (List.mem_takeWhile_imp htk2)
              · right; right
                split at h
                · cases h
                · injection h with h2
                  cases h2
                  simpa using hdw2
    · right; right
      split at h
      · cases h
      · injection h with h2
        cases h2
        exact hdw

lemma pfExp_chars (q : ℚ) (cs : List Char) (q0 : ℚ) (h : pfExp q cs = some q0) :
    ∀ c ∈ cs, c = '+' ∨ c = '-' ∨ isDigitChar c = true := by
  intro c hc
  unfold pfExp at h
  cases cs with
  | nil => cases hc
  | cons c0 r =>
      by_cases hs : c0 = '-' ∨ c0 = '+'
      · simp only [hs, if_true] at h
        split at h
        · next hcond =>
            rcases List.mem_cons.mp hc with rfl | hcr
            · rcases hs with rfl | rfl
              · exact Or.inr (Or.inl rfl)
              · exact Or.inl rfl
            · exact Or.inr (Or.inr (List.all_eq_true.mp hcond.2 c hcr))
        · cases h
      · simp only [hs, if_false] at h
        split at h
        · next hcond =>
            exact Or.inr (Or.inr (List.all_eq_true.mp hcond.2 c hc))
        · cases h

lemma pfTail_chars (q : ℚ) (r1 : List Char) (q0 : ℚ) (h : pfTail q r1 = some q0) :
    ∀ c ∈ r1, c = 'e' ∨ c = 'E' ∨ c = '+' ∨ c = '-' ∨ isDigitChar c = true := by
  intro c hc
  unfold pfTail at h
  cases r1 with
  | nil => cases hc
  | cons c0 rest =>
      by_cases he : c0 = 'e' ∨ c0 = 'E'
      · simp only [he, if_true] at h
        rcases List.mem_cons.mp hc with rfl | hcr
        · rcases he with rfl | rfl
          · exact Or.inl rfl
          · exact Or.inr (Or.inl rfl)
        · rcases pfExp_chars q rest q0 h c hcr with h1 | h1 | h1
          · exact Or.inr (Or.inr (Or.inl h1))
          · exact Or.inr (Or.inr (Or.inr (Or.inl h1)))
          · exact Or.inr (Or.inr (Or.inr (Or.inr h1)))
      · simp only [he, if_false] at h
        cases h

lemma stripSign_chars (cs : List Char) :
    ∀ c ∈ cs, c = '-' ∨ c = '+' ∨ c ∈ (stripSign cs).2 := by
  intro c hc
  unfold stripSign
  cases cs with
  | nil => cases hc
  | cons c0 r =>
      by_cases hm : c0 = '-'
      · simp only [hm, if_true]
        rcases List.mem_cons.mp hc with rfl | hcr
        · exact Or.inl hm
        · exact Or.inr (Or.inr hcr)
      · by_cases hp2 : c0 = '+'
        · simp only [hm, hp2, if_false, if_true]
          rcases List.mem_cons.mp hc with rfl | hcr
          · exact Or.inr (Or.inl hp2)
          · exact Or.inr (Or.inr hcr)
        · simp only [hm, hp2, if_false]
          exact Or.inr (Or.inr hc)

lemma goParseFloat_nospace (s : String) (f : GoFloat) (h : goParseFloat s = some f) :
    ∀ c ∈ s.toList, isGoSpace c = false := by
  intro c hc
  rcases stripSign_chars s.toList c hc with rfl | rfl | hrest
  · decide
  · decide
  · by_cases hinf : toLowerList (stripSign s.toList).2 = "inf".toList ∨
        toLowerList (stripSign s.toList).2 = "infinity".toList
    · rcases hinf with hi | hi
      · exact nospace_of_toLower_list _ _ hi (by decide) c hrest
      · exact nospace_of_toLower_list _ _ hi (by decide) c hrest
    · by_cases hnan : toLowerList (stripSign s.toList).2 = "nan".toList
      · exact nospace_of_toLower_list _ _ hnan (by decide) c hrest
      · by_cases hund : underscoresOK (stripSign s.toList).2 = true
        · by_cases hc2 : c = '_'
          · subst hc2; decide
          · have hcl : c ∈ (stripSign s.toList).2.filter (fun x => x ≠ '_') := by
              rw [List.mem_filter]
              exact ⟨hrest, by simpa using hc2⟩
            unfold goParseFloat pfDecimal at h
            rw [if_neg hinf, if_neg hnan, if_pos hund] at h
            cases hm : pfMantissa ((stripSign s.toList).2.filter (fun x => x ≠ '_')) with
            | none =>
                rw [hm, Option.none_bind] at h
                exact Option.noConfusion h
            | some pr =>
                obtain ⟨m, r1⟩ := pr
                rcases pfMantissa_chars _ m r1 hm c hcl with hd | rfl | hr1
                · exact isGoSpace_false_of_digit c hd
                · decide
                · cases ht : pfTail m r1 with
                  | none =>
                      rw [hm, Option.some_bind] at h
                      simp only [] at h
                      rw [ht, Option.none_bind] at h
                      exact Option.noConfusion h
                  | some q0 =>
                      rcases pfTail_chars m r1 q0 ht c hr1 with rfl | rfl | rfl | rfl | hd
                      · decide
                      · decide
                      · decide
                      · decide
                      · exact isGoSpace_false_of_digit c hd
        · unfold goParseFloat at h
          rw [if_neg hinf, if_neg hnan, if_neg hund] at h
          exact Option.noConfusion h

lemma dropWhile_eq_self_of (l : List Char) (h : ∀ c ∈ l, isGoSpace c = false) :
    l.dropWhile isGoSpace = l := by
  cases l with
  | nil => rfl
  | cons a t => simp [List.dropWhile, h a (List.mem_cons_self a t)]

lemma goTrimSpace_eq_self (s : String) (h : ∀ c ∈ s.toList, isGoSpace c = false) :
    goTrimSpace s = s := by
  unfold goTrimSpace
  rw [dropWhile_eq_self_of _ h,
    dropWhile_eq_self_of _ (fun c hc => h c (List.mem_reverse.mp hc)), List.reverse_reverse]
  cases s
  rfl

lemma utilParseFloat_of_some (s : String) (f : GoFloat) (h : goParseFloat s = some f) :
    utilParseFloat s = some f := by
  unfold utilParseFloat
  rw [goTrimSpace_eq_self s (goParseFloat_nospace s f h), h]

/-- On a cell the sequential keep decision accepts, the parallel keep
decision is the same boolean. -/
lemma keep_agree (mn mx : ℚ) (cell : String) (b : Bool)
    (h : seqKeepCell mn mx cell = some b) : pKeepCell mn mx cell = b := by
  unfold seqKeepCell at h
  unfold pKeepCell
  by_cases hc : cell = ""
  · rw [if_pos hc] at h
    rw [if_pos hc]
    injection h
  · rw [if_neg hc] at h
    rw [if_neg hc]
    cases hp : goParseFloat cell with
    | none => rw [hp] at h; exact Option.noConfusion h
    | some f =>
        rw [hp] at h
        injection h with h2
        rw [utilParseFloat_of_some cell f hp, ← h2]

/-! ## Loop characterizations -/

lemma getD_mem {α : Type} (l : List α) (i : Nat) (d : α) (h : i < l.length) :
    l.getD i d ∈ l := by
  rw [List.getD_eq_getElem _ _ h]
  exact List.getElem_mem h

lemma rowAt_mem (data : List (List String)) (i : Nat) (h : i < data.length) :
    rowAt data i ∈ data :=
  getD_mem data i [] h

lemma rowAt_map (f : List String → List String) (data : List (List String)) (i : Nat)
    (hi : i < data.length) : rowAt (data.map f) i = f (rowAt data i) := by
  unfold rowAt
  rw [List.getD_eq_getElem _ _ (by simpa using hi), List.getD_eq_getElem _ _ hi,
    List.getElem_map]

lemma cleanDatesLoop_ok (ci : Nat) (layout : String) (data : List (List String))
    (h : ∀ row ∈ data, cellAt ci row = "" ∨
      (firstParse seqCleanDatesLayouts (cellAt ci row)).isSome = true) :
    cleanDatesLoop ci layout data = (data.map (cleanDatesRow ci layout), none) := by
  induction data with
  | nil => rfl
  | cons row rest ih =>
      have hrest := fun r hr => h r (List.mem_cons_of_mem _ hr)
      have hrow := h row (List.mem_cons_self _ _)
      by_cases hc : cellAt ci row = ""
      · simp [cleanDatesLoop, hc, ih hrest, cleanDatesRow]
      · rcases hrow with hc2 | hsome
        · exact absurd hc2 hc
        · cases hfp : firstParse seqCleanDatesLayouts (cellAt ci row) with
          | none => rw [hfp] at hsome; cases hsome
          | some t => simp [cleanDatesLoop, hc, hfp, ih hrest, cleanDatesRow]

lemma cleanDatesLoop_bad (ci : Nat) (layout : String) (data : List (List String)) (i : Nat)
    (hi : i < data.length)
    (hbad1 : cellAt ci (rowAt data i) ≠ "")
    (hbad2 : firstParse seqCleanDatesLayouts (cellAt ci (rowAt data i)) = none)
    (hgood : ∀ j < i, cellAt ci (rowAt data j) = "" ∨
      (firstParse seqCleanDatesLayouts (cellAt ci (rowAt data j))).isSome = true) :
    cleanDatesLoop ci layout data =
      ((data.take i).map (cleanDatesRow ci layout) ++ data.drop i,
       some (i, cellAt ci (rowAt data i))) := by
  induction data generalizing i with
  | nil => simp at hi
  | cons row rest ih =>
      cases i with
      | zero =>
          simp only [rowAt, List.getD_cons_zero] at hbad1 hbad2
          simp [cleanDatesLoop, hbad1, hbad2, rowAt]
      | succ i2 =>
          have hrow := hgood 0 (Nat.succ_pos _)
          simp only [rowAt, List.getD_cons_zero] at hrow
          have hi2 : i2 < rest.length := by simpa using hi
          have hb1 : cellAt ci (rowAt rest i2) ≠ "" := by simpa [rowAt] using hbad1
          have hb2 : firstParse seqCleanDatesLayouts (cellAt ci (rowAt rest i2)) = none := by
            simpa [rowAt] using hbad2
          have hg2 : ∀ j < i2, cellAt ci (rowAt rest j) = "" ∨
              (firstParse seqCleanDatesLayouts (cellAt ci (rowAt rest j))).isSome = true := by
            intro j hj
            have := hgood (j + 1) (by omega)
            simpa [rowAt] using this
          have Hrec := ih i2 hi2 hb1 hb2 hg2
          by_cases hc : cellAt ci row = ""
          · simp [cleanDatesLoop, hc, Hrec, cleanDatesRow, rowAt]
          · rcases hrow with hc2 | hsome
            · exact absurd hc2 hc
            · cases hfp : firstParse seqCleanDatesLayouts (cellAt ci row) with
              | none => rw [hfp] at hsome; cases hsome
              | some t => simp [cleanDatesLoop, hc, hfp, Hrec, cleanDatesRow, rowAt]

lemma cleanDatesLoop_wf (ci : Nat) (layout : String) (data : List (List String)) (w : Nat)
    (h : ∀ r ∈ data, r.length = w) :
    ∀ r ∈ (cleanDatesLoop ci layout data).1, r.length = w := by
  induction data with
  | nil => intro r hr; cases hr
  | cons row rest ih =>
      have hrow := h row (List.mem_cons_self _ _)
      have hrest := fun r hr => h r (List.mem_cons_of_mem _ hr)
      rcases hrec : cleanDatesLoop ci layout rest with ⟨rs, e⟩
      have ihr : ∀ r ∈ rs, r.length = w := by
        intro r hr
        have h2 := ih hrest
        rw [hrec] at h2
        exact h2 r hr
      by_cases hc : cellAt ci row = ""
      · have hstep : (cleanDatesLoop ci layout (row :: rest)).1 = row :: rs := by
          simp [cleanDatesLoop, hc, hrec]
        rw [hstep]
        intro r hr
        rcases List.mem_cons.mp hr with rfl | hr2
        · exact hrow
        · exact ihr r hr2
      · cases hfp : firstParse seqCleanDatesLayouts (cellAt ci row) with
        | none =>
            have hstep : (cleanDatesLoop ci layout (row :: rest)).1 = row :: rest := by
              simp [cleanDatesLoop, hc, hfp]
            rw [hstep]
            exact h
        | some t =>
            have hstep : (cleanDatesLoop ci layout (row :: rest)).1 =
                row.set ci (goTimeFormat t layout) :: rs := by
              simp [cleanDatesLoop, hc, hfp, hrec]
            rw [hstep]
            intro r hr
            rcases List.mem_cons.mp hr with rfl | hr2
            · rw [List.length_set]; exact hrow
            · exact ihr r hr2

lemma filterLoop_eq_ok (ci : Nat) (mn mx : ℚ) (data rows : List (List String))
    (h : filterLoop ci mn mx data = .ok rows) :
    rows = data.filter (fun r => seqKeepCell mn mx (cellAt ci r) == some true) ∧
      ∀ r ∈ data, (seqKeepCell mn mx (cellAt ci r)).isSome = true := by
  induction data generalizing rows with
  | nil =>
      simp only [filterLoop] at h
      injection h with h2
      subst h2
      exact ⟨rfl, by intro r hr; cases hr⟩
  | cons row rest ih =>
      cases hk : seqKeepCell mn mx (cellAt ci row) with
      | none =>
          simp only [filterLoop, hk] at h
          cases h
      | some b =>
          cases b with
          | true =>
              simp only [filterLoop, hk] at h
              cases hrec : filterLoop ci mn mx rest with
              | error e => rw [hrec] at h; cases h
              | ok rs =>
                  rw [hrec] at h
                  injection h with h2
                  subst h2
                  obtain ⟨hfil, hall⟩ := ih rs hrec
                  constructor
                  · rw [List.filter_cons]
                    simp [hk, hfil]
                  · intro r hr
                    rcases List.mem_cons.mp hr with rfl | hr2
                    · rw [hk]; rfl
                    · exact hall r hr2
          | false =>
              simp only [filterLoop, hk] at h
              obtain ⟨hfil, hall⟩ := ih rows h
              constructor
              · rw [List.filter_cons]
                simp [hk, hfil]
              · intro r hr
                rcases List.mem_cons.mp hr with rfl | hr2
                · rw [hk]; rfl
                · exact hall r hr2

lemma filterLoop_ok_of (ci : Nat) (mn mx : ℚ) (data : List (List String))
    (h : ∀ r ∈ data, (seqKeepCell mn mx (cellAt ci r)).isSome = true) :
    filterLoop ci mn mx data =
      .ok (data.filter (fun r => seqKeepCell mn mx (cellAt ci r) == some true)) := by
  induction data with
  | nil => rfl
  | cons row rest ih =>
      have hrow := h row (List.mem_cons_self _ _)
      have hrest := ih (fun r hr => h r (List.mem_cons_of_mem _ hr))
      cases hk : seqKeepCell mn mx (cellAt ci row) with
      | none => rw [hk] at hrow; cases hrow
      | some b =>
          cases b with
          | true => simp [filterLoop, hk, hrest, List.filter_cons]
          | false => simp [filterLoop, hk, hrest, List.filter_cons]

lemma replaceAt_length (ci : Nat) (repl l : List String) (h : ci < l.length) :
    (replaceAt ci repl l).length = l.length - 1 + repl.length := by
  induction l generalizing ci with
  | nil => simp at h
  | cons a t ih =>
      cases ci with
      | zero => simp [replaceAt]; omega
      | succ n =>
          have := ih n (by simpa using h)
          simp only [replaceAt, List.length_cons, this]
          have hn : n < t.length := by simpa using h
          omega

lemma replaceAt_eq_take_drop (ci : Nat) (repl l : List String) (h : ci < l.length) :
    replaceAt ci repl l = l.take ci ++ repl ++ l.drop (ci + 1) := by
  induction l generalizing ci with
  | nil => simp at h
  | cons a t ih =>
      cases ci with
      | zero => simp [replaceAt]
      | succ n => simp [replaceAt, ih n (by simpa using h)]

lemma padParts_length (k : Nat) (parts : List String) : (padParts k parts).length = k := by
  simp [padParts]

lemma copy_eq (df : DataFrame) : df.copy = df := by
  unfold DataFrame.copy
  cases df with
  | mk H D T => simp

lemma lookup_map_pair (g : Nat → DataFrame) (l : List Nat) (i : Nat) (hi : i ∈ l) :
    (l.map (fun j => (j, g j))).lookup i = some (g i) := by
  induction l with
  | nil => cases hi
  | cons a t ih =>
      by_cases hia : i = a
      · subst hia
        simp [List.lookup_cons]
      · have hit : i ∈ t := by
          rcases List.mem_cons.mp hi with h2 | h2
          · exact absurd h2 hia
          · exact h2
        have hba : (i == a) = false := by simp [hia]
        simp [List.lookup_cons, hba, ih hit]

lemma collectBatch_ok (F : Nat → Except DFError DataFrame) (fb : DataFrame) (l : List Nat)
    (h : ∀ i ∈ l, ∃ d, F i = .ok d) :
    collectBatch (l.map (fun i => (i, F i))) = .ok (l.map (fun i => (i, exceptD (F i) fb))) := by
  induction l with
  | nil => rfl
  | cons a t ih =>
      obtain ⟨d, hd⟩ := h a (List.mem_cons_self _ _)
      have iht := ih (fun i hi => h i (List.mem_cons_of_mem _ hi))
      simp only [List.map_cons, hd]
      simp [collectBatch, iht, exceptD]

lemma collectBatch_error (results : List (Nat × Except DFError DataFrame))
    (h : ∃ p ∈ results, ∃ e, p.2 = .error e) :
    ∃ e, collectBatch results = .error e ∧ ∃ p ∈ results, p.2 = .error e := by
  induction results with
  | nil =>
      obtain ⟨p, hp, _⟩ := h
      cases hp
  | cons pr rest ih =>
      obtain ⟨i, r⟩ := pr
      cases r with
      | error e =>
          exact ⟨e, rfl, ⟨(i, .error e), List.mem_cons_self _ _, rfl⟩⟩
      | ok d =>
          have h2 : ∃ p ∈ rest, ∃ e, p.2 = .error e := by
            obtain ⟨p, hp, e, he⟩ := h
            rcases List.mem_cons.mp hp with rfl | hpr
            · cases he
            · exact ⟨p, hpr, e, he⟩
          obtain ⟨e, hc, p, hp, he⟩ := ih h2
          refine ⟨e, ?_, p, List.mem_cons_of_mem _ hp, he⟩
          simp [collectBatch, hc]

lemma pickLast_ok (m : List (Nat × DataFrame)) (g : Nat → DataFrame) (start : DataFrame)
    (n : Nat) (hn : 0 < n) (hl : ∀ i < n, m.lookup i = some (g i)) :
    pickLast m start n = .ok (g (n - 1)) := by
  induction n with
  | zero => cases hn
  | succ k ih =>
      unfold pickLast
      rw [List.range_succ, List.foldl_append]
      cases k with
      | zero => simp [hl 0 (by omega)]
      | succ k2 =>
          have hfold := ih (by omega) (fun i hi => hl i (by omega))
          unfold pickLast at hfold
          rw [hfold]
          simp [hl (k2 + 1) (by omega)]

lemma seqLayouts_sub (layout : String) :
    ∀ l ∈ seqCleanDatesLayouts, l ∈ parseDateLayouts layout := by
  intro l hl
  simp only [seqCleanDatesLayouts, List.mem_cons, List.not_mem_nil, or_false] at hl
  rcases hl with rfl | rfl | rfl | rfl <;> simp [parseDateLayouts]

lemma firstParse_seq_none (s layout : String) (h : goParseDate s layout = none) :
    firstParse seqCleanDatesLayouts s = none := by
  unfold goParseDate at h
  rw [firstParse_eq_none_iff]
  intro l hl
  exact (firstParse_eq_none_iff _ _).mp h l (seqLayouts_sub layout l hl)

/-! ## Parallel driver equivalences -/

lemma parallelizeRows_eq (df : DataFrame) (proc : List String → List String)
    (arrival : List Nat) (hp : arrival.Perm (List.range df.Data.length)) :
    parallelizeRows df proc arrival = { df with Data := df.Data.map proc } := by
  unfold parallelizeRows
  by_cases h : df.Data = []
  · rw [if_pos h]
    cases df
    simp_all
  · rw [if_neg h]
    have hs : scatter (fun j => proc (rowAt df.Data j)) arrival
        (List.replicate df.Data.length []) =
        (List.range df.Data.length).map (fun j => proc (rowAt df.Data j)) :=
      scatter_eq_map _ _ _ _ hp (List.length_replicate _ _)
    show { df with Data := scatter (fun j => proc (rowAt df.Data j)) arrival (List.replicate df.Data.length []) } = _
    rw [hs]
    congr 1
    exact range_map_getD df.Data [] proc

lemma parallelizeColumns_single (df : DataFrame) (ci : Nat)
    (proc : List String → Nat → List String) (arrival : List Nat)
    (hci : ci < df.Headers.length) (hp : arrival.Perm (List.range df.Data.length)) :
    parallelizeColumns df [ci] proc arrival =
      { df with Data := df.Data.map (fun row => proc row ci) } := by
  unfold parallelizeColumns
  by_cases h : df.Data = []
  · rw [if_pos h]
    cases df
    simp_all
  · rw [if_neg h]
    have hfil : ([ci].filter (fun i => decide (i < df.Headers.length))) = [ci] := by
      simp [hci]
    simp only [hfil]
    rw [if_neg (by simp)]
    have hs : scatter (fun j => [ci].foldl (fun row c => proc row c) (rowAt df.Data j))
        arrival df.Data =
        (List.range df.Data.length).map
          (fun j => [ci].foldl (fun row c => proc row c) (rowAt df.Data j)) :=
      scatter_eq_map _ _ _ _ hp rfl
    show { df with Data := scatter (fun j => [ci].foldl (fun row c => proc row c) (rowAt df.Data j)) arrival df.Data } = _
    rw [hs]
    congr 1
    exact range_map_getD df.Data [] (fun row => proc row ci)

lemma checkRows_none (w k : Nat) (data : List (List String))
    (h : ∀ r ∈ data, r.length = w) : checkRows w k data = none := by
  induction data generalizing k with
  | nil => rfl
  | cons r rs ih =>
      have hr := h r (List.mem_cons_self _ _)
      simp only [checkRows, hr]
      rw [if_neg (by omega)]
      exact ih (k + 1) (fun x hx => h x (List.mem_cons_of_mem _ hx))

lemma checkRows_first (w k : Nat) (data : List (List String)) (i : Nat)
    (hi : i < data.length) (hbad : (rowAt data i).length ≠ w)
    (hgood : ∀ j < i, (rowAt data j).length = w) :
    checkRows w k data = some (k + i, (rowAt data i).length) := by
  induction data generalizing k i with
  | nil => simp at hi
  | cons r rs ih =>
      cases i with
      | zero =>
          simp only [rowAt, List.getD_cons_zero] at hbad ⊢
          simp [checkRows, hbad]
      | succ i2 =>
          have hr : r.length = w := by
            have := hgood 0 (Nat.succ_pos _)
            simpa [rowAt] using this
          simp only [checkRows, hr]
          rw [if_neg (by omega)]
          have hrec := ih (k + 1) i2 (by simpa using hi) (by simpa [rowAt] using hbad)
            (fun j hj => by simpa [rowAt] using hgood (j + 1) (by omega))
          rw [hrec]
          have h1 : k + 1 + i2 = k + (i2 + 1) := by omega
          have h2 : rowAt rs i2 = rowAt (r :: rs) (i2 + 1) := by simp [rowAt]
          rw [h1, h2]

/-! ## Claim theorems -/

/-- C4: for every table and every result arrival order, the row-parallel
TrimColumnsParallel returns exactly the table the sequential TrimColumns
returns — same row order, same cell values — with every cell the
whitespace-trimmed original. -/
theorem trimColumnsParallel_eq_trimColumns (df : DataFrame) (arrival : List Nat)
    (hp : arrival.Perm (List.range df.Data.length)) :
    trimColumnsParallel df arrival = trimColumns df ∧
      (trimColumns df).Headers = df.Headers ∧
      (trimColumns df).Data.length = df.Data.length ∧
      ∀ i < df.Data.length, rowAt (trimColumns df).Data i = (rowAt df.Data i).map goTrimSpace := by
  refine ⟨?_, rfl, by simp [trimColumns], ?_⟩
  · unfold trimColumnsParallel
    exact parallelizeRows_eq df _ arrival hp
  · intro i hi
    exact rowAt_map _ df.Data i hi

/-- Witness for C4 at the repository trim-test table with arrival order
reversed. -/
theorem trimColumnsParallel_eq_trimColumns_witness :
    trimColumnsParallel dfTrimW [1, 0] = trimColumns dfTrimW ∧
      (trimColumns dfTrimW).Data = [["Ali", "30"], ["Ayse", "25"]] := by
  refine ⟨(trimColumnsParallel_eq_trimColumns dfTrimW [1, 0] (by decide)).1, by decide⟩

/-- C8: construction fails with EmptyHeaders on an empty header list,
fails with ShapeMismatch naming the first offending row index, its
actual width and the expected width when some row has the wrong width,
and otherwise succeeds with exactly the given headers and rows. -/
theorem newDataFrame_spec (headers : List String) (data : List (List String)) :
    (headers = [] → newDataFrame headers data = .error .emptyHeaders) ∧
    (headers ≠ [] → ∀ i, i < data.length → (rowAt data i).length ≠ headers.length →
      (∀ j < i, (rowAt data j).length = headers.length) →
      newDataFrame headers data =
        .error (.shapeMismatch i (rowAt data i).length headers.length)) ∧
    (headers ≠ [] → (∀ r ∈ data, r.length = headers.length) →
      ∃ d, newDataFrame headers data = .ok d ∧ d.Headers = headers ∧ d.Data = data ∧ d.WF) := by
  refine ⟨?_, ?_, ?_⟩
  · intro h
    simp [newDataFrame, h]
  · intro hne i hi hbad hgood
    have hc := checkRows_first headers.length 0 data i hi hbad hgood
    simp [newDataFrame, hne, hc]
  · intro hne hall
    have hc := checkRows_none headers.length 0 data hall
    refine ⟨{ Headers := headers, Data := data, Types := fun h => if h ∈ headers then some GoType.typeString else none }, by simp [newDataFrame, hne, hc], rfl, rfl, ?_⟩
    intro r hr
    exact hall r hr

/-- Witness for C8: the empty-header failure, the first-offending-row
failure and the success case at concrete inputs. -/
theorem newDataFrame_spec_witness :
    newDataFrame [] [["x"]] = .error .emptyHeaders ∧
    newDataFrame ["A", "B"] [["x", "y"], ["z"]] = .error (.shapeMismatch 1 1 2) ∧
    ∃ d, newDataFrame ["A", "B"] [["x", "y"]] = .ok d ∧ d.Headers = ["A", "B"] ∧
      d.Data = [["x", "y"]] ∧ d.WF := by
  refine ⟨(newDataFrame_spec [] [["x"]]).1 rfl, ?_, ?_⟩
  · exact (newDataFrame_spec ["A", "B"] [["x", "y"], ["z"]]).2.1 (by decide) 1 (by decide)
      (by decide) (by decide)
  · exact (newDataFrame_spec ["A", "B"] [["x", "y"]]).2.2 (by decide) (by decide)

/-- C7 counterexample: with the empty replacement value an empty cell of
the column is still the empty string after ReplaceNulls although it was
not a non-empty unchanged cell, so the final clause of the claim fails
at v = the empty string. -/
theorem replaceNulls_empty_value_counterexample :
    (replaceNulls dfNullCE "A" "").2 = none ∧
    cellAt 0 (rowAt (replaceNulls dfNullCE "A" "").1.Data 0) = "" ∧
    cellAt 0 (rowAt dfNullCE.Data 0) = "" := by decide

/-- C7 (amended): after ReplaceNulls every empty cell of the column
holds the replacement value, every other cell is unchanged, and —
provided the replacement value is itself non-empty — no cell of the
column is left empty. -/
theorem replaceNulls_spec (df : DataFrame) (column v : String) (ci : Nat)
    (hci : getColumnIndex df column = some ci) (hwf : df.WF) :
    (replaceNulls df column v).2 = none ∧
    (replaceNulls df column v).1.Headers = df.Headers ∧
    (replaceNulls df column v).1.Data.length = df.Data.length ∧
    (∀ i < df.Data.length,
      cellAt ci (rowAt (replaceNulls df column v).1.Data i) =
        (if cellAt ci (rowAt df.Data i) = "" then v else cellAt ci (rowAt df.Data i)) ∧
      ∀ j, j ≠ ci →
        cellAt j (rowAt (replaceNulls df column v).1.Data i) = cellAt j (rowAt df.Data i)) ∧
    (v ≠ "" → ∀ i < df.Data.length,
      cellAt ci (rowAt (replaceNulls df column v).1.Data i) ≠ "") := by
  have hci_lt : ci < df.Headers.length := getColumnIndex_lt df column ci hci
  have hdata : (replaceNulls df column v).1.Data =
      df.Data.map (fun row => if cellAt ci row = "" then row.set ci v else row) := by
    simp [replaceNulls, hci]
  have hcell : ∀ i < df.Data.length,
      cellAt ci (rowAt (replaceNulls df column v).1.Data i) =
        (if cellAt ci (rowAt df.Data i) = "" then v else cellAt ci (rowAt df.Data i)) := by
    intro i hi
    rw [hdata, rowAt_map _ _ _ hi]
    by_cases hc : cellAt ci (rowAt df.Data i) = ""
    · rw [if_pos hc, if_pos hc]
      have hlen : ci < (rowAt df.Data i).length := by
        rw [hwf (rowAt df.Data i) (rowAt_mem df.Data i hi)]
        exact hci_lt
      exact getD_set_self _ _ _ _ hlen
    · rw [if_neg hc, if_neg hc]
  refine ⟨by simp [replaceNulls, hci], by simp [replaceNulls, hci], by rw [hdata]; simp, ?_, ?_⟩
  · intro i hi
    refine ⟨hcell i hi, ?_⟩
    intro j hj
    rw [hdata, rowAt_map _ _ _ hi]
    by_cases hc : cellAt ci (rowAt df.Data i) = ""
    · rw [if_pos hc]
      exact getD_set_ne _ _ _ _ _ (fun e => hj e.symm)
    · rw [if_neg hc]
  · intro hv i hi
    rw [hcell i hi]
    by_cases hc : cellAt ci (rowAt df.Data i) = ""
    · rw [if_pos hc]; exact hv
    · rw [if_neg hc]; exact hc

/-- Witness for C7 (amended) at the salary table: empty replacement of
the Age column with a non-empty value. -/
theorem replaceNulls_spec_witness :
    (replaceNulls dfSalary "Age" "0").2 = none ∧
    cellAt 1 (rowAt (replaceNulls dfSalary "Age" "0").1.Data 0) =
      (if cellAt 1 (rowAt dfSalary.Data 0) = "" then "0" else cellAt 1 (rowAt dfSalary.Data 0)) := by
  have h := replaceNulls_spec dfSalary "Age" "0" 1 (by decide) (by decide)
  exact ⟨h.1, (h.2.2.2.1 0 (by decide)).1⟩

/-- C1 counterexample: a non-numeric cell does not fail the parallel
filter — the call succeeds and the row is kept, although the raw value
fails the float conversion. -/
theorem filterOutliersParallel_keeps_bad_cell_counterexample :
    exceptData ((filterOutliersParallel dfConvCE "A" 0 10 [0]).2) = some [["abc"]] ∧
    goParseFloat (goTrimSpace "abc") = none := by decide

/-- C1 (amended): FilterOutliersParallel never turns a worker conversion
failure into an error: the call succeeds, the result holds exactly the
kept rows in arrival order, and every row whose non-empty cell fails the
(trimmed) float conversion is kept. -/
theorem filterOutliersParallel_keeps_conversion_failures (df : DataFrame) (column : String)
    (mn mx : ℚ) (ci : Nat) (arrival : List Nat)
    (hci : getColumnIndex df column = some ci) :
    ∃ res, (filterOutliersParallel df column mn mx arrival).2 = .ok res ∧
      res.Data = (arrival.filter (fun i => pKeepCell mn mx (cellAt ci (rowAt df.Data i)))).map
        (fun i => rowAt df.Data i) ∧
      ∀ i ∈ arrival, cellAt ci (rowAt df.Data i) ≠ "" →
        utilParseFloat (cellAt ci (rowAt df.Data i)) = none →
        rowAt df.Data i ∈ res.Data := by
  refine ⟨⟨df.Headers, (arrival.filter (fun i => pKeepCell mn mx (cellAt ci (rowAt df.Data i)))).map (fun i => rowAt df.Data i), df.Types⟩, by simp [filterOutliersParallel, hci], rfl, ?_⟩
  intro i hi hne hpf
  apply List.mem_map_of_mem
  rw [List.mem_filter]
  refine ⟨hi, ?_⟩
  unfold pKeepCell
  rw [if_neg hne, hpf]

/-- Witness for C1 (amended) at the one-cell non-numeric table. -/
theorem filterOutliersParallel_keeps_conversion_failures_witness :
    ∃ res, (filterOutliersParallel dfConvCE "A" 0 10 [0]).2 = .ok res ∧
      res.Data = ([0].filter (fun i => pKeepCell 0 10 (cellAt 0 (rowAt dfConvCE.Data i)))).map
        (fun i => rowAt dfConvCE.Data i) ∧
      ∀ i ∈ [0], cellAt 0 (rowAt dfConvCE.Data i) ≠ "" →
        utilParseFloat (cellAt 0 (rowAt dfConvCE.Data i)) = none →
        rowAt dfConvCE.Data i ∈ res.Data :=
  filterOutliersParallel_keeps_conversion_failures dfConvCE "A" 0 10 0 [0] (by decide)

/-- C2 counterexample: with output layout 2006 the cell 1990 parses
under the output layout, yet the sequential CleanDates fails with a date
parse failure — it never consults the caller layout — while the variant
that tries the caller layout first succeeds and leaves the cell as 1990. -/
theorem cleanDates_layout_not_first_counterexample :
    (cleanDates dfLayoutCE "D" "2006").2 = some (.dateParseFailure 0 "D" "1990") ∧
    (goTimeParse "2006" "1990").isSome = true ∧
    (cleanDatesSpec dfLayoutCE "D" "2006").2 = none ∧
    (cleanDatesSpec dfLayoutCE "D" "2006").1.Data = [["1990"]] := by decide

/-- C2 (amended): sequential CleanDates parses each non-empty cell
against the fixed ordered list RFC3339, 2006-01-02, 02/01/2006,
01/02/2006 — the caller output layout is not consulted during parsing —
the first layout that parses wins and the cell is rewritten to
Format(outputLayout); if every cell parses the call succeeds and tags
the column as date, and the first unparseable cell aborts the call with
its index and raw value, leaving only the earlier rows rewritten. -/
theorem cleanDates_fixed_layouts_spec (df : DataFrame) (column layout : String) (ci : Nat)
    (hci : getColumnIndex df column = some ci) :
    ((∀ row ∈ df.Data, cellAt ci row = "" ∨
        (firstParse seqCleanDatesLayouts (cellAt ci row)).isSome = true) →
      (cleanDates df column layout).2 = none ∧
      (cleanDates df column layout).1.Data = df.Data.map (cleanDatesRow ci layout) ∧
      (cleanDates df column layout).1.Types column = some .typeDate) ∧
    (∀ i < df.Data.length, cellAt ci (rowAt df.Data i) ≠ "" →
      firstParse seqCleanDatesLayouts (cellAt ci (rowAt df.Data i)) = none →
      (∀ j < i, cellAt ci (rowAt df.Data j) = "" ∨
        (firstParse seqCleanDatesLayouts (cellAt ci (rowAt df.Data j))).isSome = true) →
      (cleanDates df column layout).2 =
        some (.dateParseFailure i column (cellAt ci (rowAt df.Data i))) ∧
      (cleanDates df column layout).1.Data =
        (df.Data.take i).map (cleanDatesRow ci layout) ++ df.Data.drop i) := by
  constructor
  · intro hall
    have hloop := cleanDatesLoop_ok ci layout df.Data hall
    refine ⟨?_, ?_, ?_⟩ <;> simp [cleanDates, hci, hloop]
  · intro i hi hne hno hgood
    have hloop := cleanDatesLoop_bad ci layout df.Data i hi hne hno hgood
    exact ⟨by simp [cleanDates, hci, hloop], by simp [cleanDates, hci, hloop]⟩

/-- Witness for C2 (amended) at the birth-date table with one
unparseable value in row 1. -/
theorem cleanDates_fixed_layouts_spec_witness :
    (cleanDates dfDatesW "Birth Date" "2006-01-02").2 =
      some (.dateParseFailure 1 "Birth Date" "invalid-date") ∧
    (cleanDates dfDatesW "Birth Date" "2006-01-02").1.Data =
      [["Ali", "1990-01-15"], ["Can", "invalid-date"], ["Ayse", "1995-05-20"]] := by
  have h := (cleanDates_fixed_layouts_spec dfDatesW "Birth Date" "2006-01-02" 1 (by decide)).2
    1 (by decide) (by decide) (by decide) (by decide)
  refine ⟨?_, ?_⟩
  · rw [h.1]
    decide
  · rw [h.2]
    decide

lemma cleanDateProc_skip (layout : String) (row : List String) (ci : Nat)
    (hne : cellAt ci row ≠ "") (hno : goParseDate (cellAt ci row) layout = none) :
    cleanDateProc layout row ci = row := by
  unfold cleanDateProc
  rw [if_neg hne, hno]

/-- C3: if some non-empty cell of the column parses under no known
layout, the sequential CleanDates fails with DateParseFailure naming the
first offending row index, the column and the raw value — rows before it
already rewritten, rows after it untouched — while CleanDatesParallel on
the same input succeeds for every arrival order and leaves every such
cell unchanged; the value 1990-01-15 with layout 2006-01-02 is returned
unchanged by both. -/
theorem cleanDates_seq_aborts_parallel_preserves (df : DataFrame) (column layout : String)
    (ci : Nat) (arrival : List Nat)
    (hci : getColumnIndex df column = some ci)
    (hp : arrival.Perm (List.range df.Data.length)) :
    ((∃ i, i < df.Data.length ∧ cellAt ci (rowAt df.Data i) ≠ "" ∧
        goParseDate (cellAt ci (rowAt df.Data i)) layout = none) →
      ∃ i, i < df.Data.length ∧
        (cleanDates df column layout).2 =
          some (.dateParseFailure i column (cellAt ci (rowAt df.Data i))) ∧
        cellAt ci (rowAt df.Data i) ≠ "" ∧
        firstParse seqCleanDatesLayouts (cellAt ci (rowAt df.Data i)) = none ∧
        (cleanDates df column layout).1.Data =
          (df.Data.take i).map (cleanDatesRow ci layout) ++ df.Data.drop i) ∧
    (∃ res, cleanDatesParallel df column layout arrival = .ok res ∧
      res.Data.length = df.Data.length ∧
      ∀ i < df.Data.length, cellAt ci (rowAt df.Data i) ≠ "" →
        goParseDate (cellAt ci (rowAt df.Data i)) layout = none →
        rowAt res.Data i = rowAt df.Data i) ∧
    (cleanDates dfBirth "BirthDate" "2006-01-02").2 = none ∧
    (cleanDates dfBirth "BirthDate" "2006-01-02").1.Data = [["1990-01-15"]] ∧
    exceptData (cleanDatesParallel dfBirth "BirthDate" "2006-01-02" [0]) =
      some [["1990-01-15"]] := by
  have hci_lt : ci < df.Headers.length := getColumnIndex_lt df column ci hci
  refine ⟨?_, ?_, by decide, by decide, by decide⟩
  · intro hex
    have hexP : ∃ i, i < df.Data.length ∧ cellAt ci (rowAt df.Data i) ≠ "" ∧
        firstParse seqCleanDatesLayouts (cellAt ci (rowAt df.Data i)) = none := by
      obtain ⟨i, hi, hne, hno⟩ := hex
      exact ⟨i, hi, hne, firstParse_seq_none _ layout hno⟩
    obtain ⟨hi0lt, hne0, hno0⟩ := Nat.find_spec hexP
    have hgood : ∀ j < Nat.find hexP, cellAt ci (rowAt df.Data j) = "" ∨
        (firstParse seqCleanDatesLayouts (cellAt ci (rowAt df.Data j))).isSome = true := by
      intro j hj
      have hnj := Nat.find_min hexP hj
      by_cases hc : cellAt ci (rowAt df.Data j) = ""
      · exact Or.inl hc
      · right
        by_cases hparse : firstParse seqCleanDatesLayouts (cellAt ci (rowAt df.Data j)) = none
        · exact absurd ⟨by omega, hc, hparse⟩ hnj
        · cases hv : firstParse seqCleanDatesLayouts (cellAt ci (rowAt df.Data j)) with
          | none => exact absurd hv hparse
          | some t => rfl
    have hloop := cleanDatesLoop_bad ci layout df.Data (Nat.find hexP) hi0lt hne0 hno0 hgood
    exact ⟨Nat.find hexP, hi0lt, by simp [cleanDates, hci, hloop], hne0, hno0,
      by simp [cleanDates, hci, hloop]⟩
  · have hcols := parallelizeColumns_single df ci (cleanDateProc layout) arrival hci_lt hp
    refine ⟨{ df with Data := df.Data.map (fun row => cleanDateProc layout row ci) }, ?_, by simp, ?_⟩
    · unfold cleanDatesParallel
      rw [hci]
      show Except.ok (parallelizeColumns df [ci] (cleanDateProc layout) arrival) = _
      rw [hcols]
    · intro i hi hne hno
      rw [rowAt_map _ _ _ hi]
      exact cleanDateProc_skip layout (rowAt df.Data i) ci hne hno

/-- Witness for C3 at the birth-date table with one unparseable value
and a reversed arrival order. -/
theorem cleanDates_seq_aborts_parallel_preserves_witness :
    ((∃ i, i < dfDatesW.Data.length ∧ cellAt 1 (rowAt dfDatesW.Data i) ≠ "" ∧
        goParseDate (cellAt 1 (rowAt dfDatesW.Data i)) "2006-01-02" = none) →
      ∃ i, i < dfDatesW.Data.length ∧
        (cleanDates dfDatesW "Birth Date" "2006-01-02").2 =
          some (.dateParseFailure i "Birth Date" (cellAt 1 (rowAt dfDatesW.Data i))) ∧
        cellAt 1 (rowAt dfDatesW.Data i) ≠ "" ∧
        firstParse seqCleanDatesLayouts (cellAt 1 (rowAt dfDatesW.Data i)) = none ∧
        (cleanDates dfDatesW "Birth Date" "2006-01-02").1.Data =
          (dfDatesW.Data.take i).map (cleanDatesRow 1 "2006-01-02") ++ dfDatesW.Data.drop i) ∧
    (∃ res, cleanDatesParallel dfDatesW "Birth Date" "2006-01-02" [2, 1, 0] = .ok res ∧
      res.Data.length = dfDatesW.Data.length ∧
      ∀ i < dfDatesW.Data.length, cellAt 1 (rowAt dfDatesW.Data i) ≠ "" →
        goParseDate (cellAt 1 (rowAt dfDatesW.Data i)) "2006-01-02" = none →
        rowAt res.Data i = rowAt dfDatesW.Data i) ∧
    (cleanDates dfBirth "BirthDate" "2006-01-02").2 = none ∧
    (cleanDates dfBirth "BirthDate" "2006-01-02").1.Data = [["1990-01-15"]] ∧
    exceptData (cleanDatesParallel dfBirth "BirthDate" "2006-01-02" [0]) =
      some [["1990-01-15"]] :=
  cleanDates_seq_aborts_parallel_preserves dfDatesW "Birth Date" "2006-01-02" 1 [2, 1, 0]
    (by decide) (by decide)

/-- C5: whenever the sequential FilterOutliers succeeds (produces rows),
FilterOutliersParallel also succeeds for every arrival order and its
result holds the same rows as a multiset — hence the same set — while
no row-order agreement is asserted. -/
theorem filterOutliers_parallel_set_equivalence (df : DataFrame) (column : String)
    (mn mx : ℚ) (ci : Nat) (arrival : List Nat)
    (hci : getColumnIndex df column = some ci)
    (hp : arrival.Perm (List.range df.Data.length))
    (hseq : (filterOutliers df column mn mx).2 = none) :
    ∃ res, (filterOutliersParallel df column mn mx arrival).2 = .ok res ∧
      res.Data.Perm ((filterOutliers df column mn mx).1.Data) ∧
      ∀ row, row ∈ res.Data ↔ row ∈ (filterOutliers df column mn mx).1.Data := by
  cases hloop : filterLoop ci mn mx df.Data with
  | error v =>
      exfalso
      have hcontra : (filterOutliers df column mn mx).2 = some (.conversionError v) := by
        simp [filterOutliers, hci, hloop]
      rw [hcontra] at hseq
      cases hseq
  | ok rows =>
      obtain ⟨hfil, hall⟩ := filterLoop_eq_ok ci mn mx df.Data rows hloop
      have hseqdata : (filterOutliers df column mn mx).1.Data = rows := by
        simp [filterOutliers, hci, hloop]
      have hkeep : ∀ r ∈ df.Data,
          pKeepCell mn mx (cellAt ci r) = (seqKeepCell mn mx (cellAt ci r) == some true) := by
        intro r hr
        have hs := hall r hr
        cases hk : seqKeepCell mn mx (cellAt ci r) with
        | none => rw [hk] at hs; cases hs
        | some b =>
            rw [keep_agree mn mx (cellAt ci r) b hk]
            cases b <;> simp
      have hqperm : (arrival.filter
            (fun i => pKeepCell mn mx (cellAt ci (rowAt df.Data i)))).Perm
          ((List.range df.Data.length).filter
            (fun i => pKeepCell mn mx (cellAt ci (rowAt df.Data i)))) :=
        hp.filter _
      have hrange : ((List.range df.Data.length).filter
            (fun i => pKeepCell mn mx (cellAt ci (rowAt df.Data i)))).map
          (fun i => rowAt df.Data i) =
          df.Data.filter (fun r => pKeepCell mn mx (cellAt ci r)) :=
        range_filter_map_getD df.Data [] (fun r => pKeepCell mn mx (cellAt ci r))
      have hcong : df.Data.filter (fun r => pKeepCell mn mx (cellAt ci r)) =
          df.Data.filter (fun r => seqKeepCell mn mx (cellAt ci r) == some true) :=
        List.filter_congr hkeep
      have hperm2 : ((arrival.filter
            (fun i => pKeepCell mn mx (cellAt ci (rowAt df.Data i)))).map
          (fun i => rowAt df.Data i)).Perm rows := by
        have h1 := hqperm.map (fun i => rowAt df.Data i)
        rw [hrange, hcong, ← hfil] at h1
        exact h1
      refine ⟨⟨df.Headers, (arrival.filter (fun i => pKeepCell mn mx (cellAt ci (rowAt df.Data i)))).map (fun i => rowAt df.Data i), df.Types⟩, by simp [filterOutliersParallel, hci], ?_, ?_⟩
      · rw [hseqdata]
        exact hperm2
      · intro row
        rw [hseqdata]
        exact hperm2.mem_iff

/-- Witness for C5 at the salary table of the specification scenario
with a scrambled arrival order. -/
theorem filterOutliers_parallel_set_equivalence_witness :
    ∃ res, (filterOutliersParallel dfSalary "Salary" 2000 10000 [2, 0, 4, 1, 3]).2 = .ok res ∧
      res.Data.Perm ((filterOutliers dfSalary "Salary" 2000 10000).1.Data) ∧
      ∀ row, row ∈ res.Data ↔ row ∈ (filterOutliers dfSalary "Salary" 2000 10000).1.Data :=
  filterOutliers_parallel_set_equivalence dfSalary "Salary" 2000 10000 2 [2, 0, 4, 1, 3]
    (by decide) (by decide) (by decide)

/-- C6: the batch combinator hands every processor a deep copy equal in
value to the source table, never writes the receiver, fails with one of
the reported processor errors whenever any processor fails, and on
success returns exactly the output of the last processor of the input
list, discarding all earlier outputs. -/
theorem batchProcessParallel_spec (df : DataFrame)
    (processors : List (DataFrame → Except DFError DataFrame)) (arrival : List Nat)
    (hne : processors ≠ [])
    (hp : arrival.Perm (List.range processors.length)) :
    (batchProcessParallel df processors arrival).1 = df ∧
    df.copy = df ∧
    ((∀ i < processors.length, ∃ d, (processors.getD i (fun x => .ok x)) df.copy = .ok d) →
      (batchProcessParallel df processors arrival).2 =
        (processors.getD (processors.length - 1) (fun x => .ok x)) df.copy) ∧
    ((∃ i < processors.length, ∃ e,
        (processors.getD i (fun x => .ok x)) df.copy = .error e) →
      ∃ e, (batchProcessParallel df processors arrival).2 = .error e ∧
        ∃ i < processors.length, (processors.getD i (fun x => .ok x)) df.copy = .error e) := by
  have hne2 : processors.isEmpty = false := by
    cases processors with
    | nil => exact absurd rfl hne
    | cons p ps => rfl
  have hlen : 0 < processors.length := List.length_pos_of_ne_nil hne
  refine ⟨?_, copy_eq df, ?_, ?_⟩
  · cases hc : collectBatch (batchResults df processors arrival) with
    | error e => simp [batchProcessParallel, hne2, batchFinish, hc]
    | ok m => simp [batchProcessParallel, hne2, batchFinish, hc]
  · intro hok
    have hF : ∀ i ∈ arrival, ∃ d, (processors.getD i (fun x => .ok x)) df.copy = .ok d := by
      intro i hi
      exact hok i (List.mem_range.mp (hp.mem_iff.mp hi))
    have hres : collectBatch (batchResults df processors arrival) =
        .ok (arrival.map (fun i =>
          (i, exceptD ((processors.getD i (fun x => .ok x)) df.copy) df.copy))) := by
      unfold batchResults
      exact collectBatch_ok (fun i => (processors.getD i (fun x => .ok x)) df.copy) df.copy
        arrival hF
    have hlook : ∀ i < processors.length,
        (arrival.map (fun i =>
          (i, exceptD ((processors.getD i (fun x => .ok x)) df.copy) df.copy))).lookup i =
          some (exceptD ((processors.getD i (fun x => .ok x)) df.copy) df.copy) := by
      intro i hi
      exact lookup_map_pair
        (fun i => exceptD ((processors.getD i (fun x => .ok x)) df.copy) df.copy) arrival i
        (hp.mem_iff.mpr (List.mem_range.mpr hi))
    have hpick := pickLast_ok
      (arrival.map (fun i =>
        (i, exceptD ((processors.getD i (fun x => .ok x)) df.copy) df.copy)))
      (fun i => exceptD ((processors.getD i (fun x => .ok x)) df.copy) df.copy)
      df.copy processors.length hlen hlook
    simp only [batchProcessParallel, hne2, Bool.false_eq_true, if_false]
    rw [hres]
    simp only [batchFinish]
    rw [hpick]
    obtain ⟨d, hd⟩ := hok (processors.length - 1) (by omega)
    rw [hd]
    simp [exceptD, hd]
  · intro hex
    obtain ⟨i, hi, e, he⟩ := hex
    have hmem : (i, (processors.getD i (fun x => .ok x)) df.copy) ∈
        batchResults df processors arrival := by
      unfold batchResults
      exact List.mem_map_of_mem _ (hp.mem_iff.mpr (List.mem_range.mpr hi))
    have hbad : ∃ p ∈ batchResults df processors arrival, ∃ e2, p.2 = .error e2 :=
      ⟨_, hmem, e, he⟩
    obtain ⟨e2, hc, p, hpmem, hpe⟩ := collectBatch_error _ hbad
    refine ⟨e2, ?_, ?_⟩
    · simp only [batchProcessParallel, hne2, Bool.false_eq_true, if_false]
      rw [hc]
      rfl
    · unfold batchResults at hpmem
      obtain ⟨j, hj, hjp⟩ := List.mem_map.mp hpmem
      refine ⟨j, List.mem_range.mp (hp.mem_iff.mp hj), ?_⟩
      rw [← hjp] at hpe
      exact hpe

/-- Witness for C6: two error-free processors over the trim-test table;
the batch output is the output of the second (last) processor. -/
theorem batchProcessParallel_spec_witness :
    (batchProcessParallel dfTrimW procsW [1, 0]).1 = dfTrimW ∧
    (batchProcessParallel dfTrimW procsW [1, 0]).2 =
      (procsW.getD 1 (fun x => .ok x)) dfTrimW.copy := by
  have h := batchProcessParallel_spec dfTrimW procsW [1, 0] (by simp [procsW]) (by decide)
  refine ⟨h.1, h.2.2.1 ?_⟩
  intro i hi
  match i, hi with
  | 0, _ => exact ⟨trimColumns dfTrimW.copy, rfl⟩
  | 1, _ => exact ⟨dfTrimW.copy, rfl⟩

/-- C9: every operation of the sequential catalogue preserves the
rectangularity invariant, including SplitColumn, the only
width-changing one, which replaces the source column with the new
columns at the same position in the header list and in every row. -/
theorem catalogue_preserves_rectangularity (df : DataFrame) (hwf : df.WF) :
    (trimColumns df).WF ∧
    (∀ column v, ((replaceNulls df column v).1).WF) ∧
    (∀ column b, ((normalizeCase df column b).1).WF) ∧
    (∀ column re, ((cleanWithRegex df column re).1).WF) ∧
    (∀ oldName newName, ((renameColumn df oldName newName).1).WF) ∧
    (∀ column layout, ((cleanDates df column layout).1).WF) ∧
    (∀ column mn mx, ((filterOutliers df column mn mx).1).WF) ∧
    (∀ column sep names, ((splitColumn df column sep names).1).WF) ∧
    (∀ column sep names ci, getColumnIndex df column = some ci →
      (splitColumn df column sep names).2 = none →
      (splitColumn df column sep names).1.Headers =
        df.Headers.take ci ++ names ++ df.Headers.drop (ci + 1) ∧
      (splitColumn df column sep names).1.Data = df.Data.map (fun row =>
        row.take ci ++ padParts names.length (goSplit (cellAt ci row) sep) ++
          row.drop (ci + 1))) := by
  refine ⟨?_, ?_, ?_, ?_, ?_, ?_, ?_, ?_, ?_⟩
  · intro row hr
    obtain ⟨r0, hr0, rfl⟩ := List.mem_map.mp hr
    simp only [trimColumns] at hr0 ⊢
    rw [List.length_map]
    exact hwf r0 hr0
  · intro column v
    cases hci : getColumnIndex df column with
    | none =>
        have : (replaceNulls df column v).1 = df := by simp [replaceNulls, hci]
        rw [this]; exact hwf
    | some ci =>
        intro row hr
        have hd : (replaceNulls df column v).1.Data =
            df.Data.map (fun row => if cellAt ci row = "" then row.set ci v else row) := by
          simp [replaceNulls, hci]
        rw [hd] at hr
        obtain ⟨r0, hr0, rfl⟩ := List.mem_map.mp hr
        have hh : (replaceNulls df column v).1.Headers = df.Headers := by
          simp [replaceNulls, hci]
        rw [hh]
        by_cases hc : cellAt ci r0 = ""
        · rw [if_pos hc, List.length_set]; exact hwf r0 hr0
        · rw [if_neg hc]; exact hwf r0 hr0
  · intro column b
    cases hci : getColumnIndex df column with
    | none =>
        have : (normalizeCase df column b).1 = df := by simp [normalizeCase, hci]
        rw [this]; exact hwf
    | some ci =>
        intro row hr
        have hd : (normalizeCase df column b).1.Data = df.Data.map (fun row =>
            row.set ci (if b then goToUpper (cellAt ci row) else goToLower (cellAt ci row))) := by
          simp [normalizeCase, hci]
        rw [hd] at hr
        obtain ⟨r0, hr0, rfl⟩ := List.mem_map.mp hr
        have hh : (normalizeCase df column b).1.Headers = df.Headers := by
          simp [normalizeCase, hci]
        rw [hh, List.length_set]
        exact hwf r0 hr0
  · intro column re
    cases hci : getColumnIndex df column with
    | none =>
        have : (cleanWithRegex df column re).1 = df := by simp [cleanWithRegex, hci]
        rw [this]; exact hwf
    | some ci =>
        cases re with
        | none =>
            have : (cleanWithRegex df column none).1 = df := by simp [cleanWithRegex, hci]
            rw [this]; exact hwf
        | some f =>
            intro row hr
            have hd : (cleanWithRegex df column (some f)).1.Data =
                df.Data.map (fun row => row.set ci (f (cellAt ci row))) := by
              simp [cleanWithRegex, hci]
            rw [hd] at hr
            obtain ⟨r0, hr0, rfl⟩ := List.mem_map.mp hr
            have hh : (cleanWithRegex df column (some f)).1.Headers = df.Headers := by
              simp [cleanWithRegex, hci]
            rw [hh, List.length_set]
            exact hwf r0 hr0
  · intro oldName newName
    cases hci : getColumnIndex df oldName with
    | none =>
        have : (renameColumn df oldName newName).1 = df := by simp [renameColumn, hci]
        rw [this]; exact hwf
    | some ci =>
        by_cases hnew : (getColumnIndex df newName).isSome
        · have : (renameColumn df oldName newName).1 = df := by
            simp [renameColumn, hci, hnew]
          rw [this]; exact hwf
        · intro row hr
          have hd : (renameColumn df oldName newName).1.Data = df.Data := by
            simp [renameColumn, hci, hnew]
          have hh : (renameColumn df oldName newName).1.Headers =
              df.Headers.set ci newName := by
            simp [renameColumn, hci, hnew]
          rw [hd] at hr
          rw [hh, List.length_set]
          exact hwf row hr
  · intro column layout
    cases hci : getColumnIndex df column with
    | none =>
        have : (cleanDates df column layout).1 = df := by simp [cleanDates, hci]
        rw [this]; exact hwf
    | some ci =>
        rcases hloop : cleanDatesLoop ci layout df.Data with ⟨d2, e⟩
        have hrows : ∀ r ∈ d2, r.length = df.Headers.length := by
          have := cleanDatesLoop_wf ci layout df.Data df.Headers.length hwf
          rw [hloop] at this
          exact this
        cases e with
        | none =>
            intro row hr
            have hd : (cleanDates df column layout).1.Data = d2 := by
              simp [cleanDates, hci, hloop]
            have hh : (cleanDates df column layout).1.Headers = df.Headers := by
              simp [cleanDates, hci, hloop]
            rw [hd] at hr
            rw [hh]
            exact hrows row hr
        | some p =>
            intro row hr
            have hd : (cleanDates df column layout).1.Data = d2 := by
              simp [cleanDates, hci, hloop]
            have hh : (cleanDates df column layout).1.Headers = df.Headers := by
              simp [cleanDates, hci, hloop]
            rw [hd] at hr
            rw [hh]
            exact hrows row hr
  · intro column mn mx
    cases hci : getColumnIndex df column with
    | none =>
        have : (filterOutliers df column mn mx).1 = df := by simp [filterOutliers, hci]
        rw [this]; exact hwf
    | some ci =>
        cases hloop : filterLoop ci mn mx df.Data with
        | error v =>
            have : (filterOutliers df column mn mx).1 = df := by
              simp [filterOutliers, hci, hloop]
            rw [this]; exact hwf
        | ok rows =>
            intro row hr
            have hd : (filterOutliers df column mn mx).1.Data = rows := by
              simp [filterOutliers, hci, hloop]
            have hh : (filterOutliers df column mn mx).1.Headers = df.Headers := by
              simp [filterOutliers, hci, hloop]
            rw [hd] at hr
            rw [hh]
            obtain ⟨hfil, _⟩ := filterLoop_eq_ok ci mn mx df.Data rows hloop
            rw [hfil] at hr
            exact hwf row (List.mem_of_mem_filter hr)
  · intro column sep names
    cases hci : getColumnIndex df column with
    | none =>
        have : (splitColumn df column sep names).1 = df := by simp [splitColumn, hci]
        rw [this]; exact hwf
    | some ci =>
        by_cases hn : names = []
        · have : (splitColumn df column sep names).1 = df := by simp [splitColumn, hci, hn]
          rw [this]; exact hwf
        · cases hfind : names.find? (fun nc => (getColumnIndex df nc).isSome) with
          | some nc =>
              have : (splitColumn df column sep names).1 = df := by
                simp [splitColumn, hci, hn, hfind]
              rw [this]; exact hwf
          | none =>
              have hci_lt : ci < df.Headers.length := getColumnIndex_lt df column ci hci
              intro row hr
              have hd : (splitColumn df column sep names).1.Data = df.Data.map (fun row =>
                  replaceAt ci (padParts names.length (goSplit (cellAt ci row) sep)) row) := by
                simp [splitColumn, hci, hn, hfind]
              have hh : (splitColumn df column sep names).1.Headers =
                  replaceAt ci names df.Headers := by
                simp [splitColumn, hci, hn, hfind]
              rw [hd] at hr
              obtain ⟨r0, hr0, rfl⟩ := List.mem_map.mp hr
              have hcir : ci < r0.length := by
                rw [hwf r0 hr0]
                exact hci_lt
              rw [hh, replaceAt_length ci names df.Headers hci_lt,
                replaceAt_length ci _ r0 hcir, padParts_length, hwf r0 hr0]
  · intro column sep names ci hci hok
    by_cases hn : names = []
    · exfalso
      have : (splitColumn df column sep names).2 = some DFError.noNewColumns := by
        simp [splitColumn, hci, hn]
      rw [this] at hok
      cases hok
    · cases hfind : names.find? (fun nc => (getColumnIndex df nc).isSome) with
      | some nc =>
          exfalso
          have : (splitColumn df column sep names).2 =
              some (DFError.columnAlreadyExists nc) := by
            simp [splitColumn, hci, hn, hfind]
          rw [this] at hok
          cases hok
      | none =>
          have hci_lt : ci < df.Headers.length := getColumnIndex_lt df column ci hci
          constructor
          · have hh : (splitColumn df column sep names).1.Headers =
                replaceAt ci names df.Headers := by
              simp [splitColumn, hci, hn, hfind]
            rw [hh, replaceAt_eq_take_drop ci names df.Headers hci_lt]
          · have hd : (splitColumn df column sep names).1.Data = df.Data.map (fun row =>
                replaceAt ci (padParts names.length (goSplit (cellAt ci row) sep)) row) := by
              simp [splitColumn, hci, hn, hfind]
            rw [hd]
            apply List.map_congr_left
            intro row hrow
            have hcir : ci < row.length := by
              rw [hwf row hrow]
              exact hci_lt
            rw [replaceAt_eq_take_drop ci _ row hcir]

/-- Witness for C9 at the salary table. -/
theorem catalogue_preserves_rectangularity_witness :
    (trimColumns dfSalary).WF ∧ ((replaceNulls dfSalary "Age" "0").1).WF ∧
    ((splitColumn dfSalary "Name" " " ["First", "Last"]).1).WF := by
  have h := catalogue_preserves_rectangularity dfSalary (by decide)
  exact ⟨h.1, h.2.1 "Age" "0", h.2.2.2.2.2.2.2.1 "Name" " " ["First", "Last"]⟩

/-- C10: FilterOutliersParallel leaves the receiver untouched and builds
a fresh result table holding exactly the kept rows (all of them rows of
the receiver), while the sequential FilterOutliers on success replaces
the receiver row grid in place with the filtered subsequence. -/
theorem filterOutliersParallel_frame (df : DataFrame) (column : String) (mn mx : ℚ)
    (ci : Nat) (arrival : List Nat)
    (hci : getColumnIndex df column = some ci)
    (hp : arrival.Perm (List.range df.Data.length)) :
    (filterOutliersParallel df column mn mx arrival).1 = df ∧
    (∃ res, (filterOutliersParallel df column mn mx arrival).2 = .ok res ∧
      res.Headers = df.Headers ∧
      res.Data.Perm (df.Data.filter (fun r => pKeepCell mn mx (cellAt ci r))) ∧
      ∀ row ∈ res.Data, row ∈ df.Data) ∧
    ((filterOutliers df column mn mx).2 = none →
      (filterOutliers df column mn mx).1.Headers = df.Headers ∧
      (filterOutliers df column mn mx).1.Data =
        df.Data.filter (fun r => seqKeepCell mn mx (cellAt ci r) == some true)) := by
  have hrange : ((List.range df.Data.length).filter
        (fun i => pKeepCell mn mx (cellAt ci (rowAt df.Data i)))).map
      (fun i => rowAt df.Data i) =
      df.Data.filter (fun r => pKeepCell mn mx (cellAt ci r)) :=
    range_filter_map_getD df.Data [] (fun r => pKeepCell mn mx (cellAt ci r))
  have hperm : ((arrival.filter
        (fun i => pKeepCell mn mx (cellAt ci (rowAt df.Data i)))).map
      (fun i => rowAt df.Data i)).Perm
      (df.Data.filter (fun r => pKeepCell mn mx (cellAt ci r))) := by
    have h1 := (hp.filter (fun i => pKeepCell mn mx (cellAt ci (rowAt df.Data i)))).map
      (fun i => rowAt df.Data i)
    rw [hrange] at h1
    exact h1
  refine ⟨by simp [filterOutliersParallel, hci], ?_, ?_⟩
  · refine ⟨⟨df.Headers, (arrival.filter (fun i => pKeepCell mn mx (cellAt ci (rowAt df.Data i)))).map (fun i => rowAt df.Data i), df.Types⟩, by simp [filterOutliersParallel, hci], rfl, hperm, ?_⟩
    intro row hr
    have hr2 := hperm.mem_iff.mp hr
    exact List.mem_of_mem_filter hr2
  · intro hseq
    cases hloop : filterLoop ci mn mx df.Data with
    | error v =>
        exfalso
        have hcontra : (filterOutliers df column mn mx).2 = some (.conversionError v) := by
          simp [filterOutliers, hci, hloop]
        rw [hcontra] at hseq
        cases hseq
    | ok rows =>
        obtain ⟨hfil, _⟩ := filterLoop_eq_ok ci mn mx df.Data rows hloop
        constructor
        · simp [filterOutliers, hci, hloop]
        · rw [show (filterOutliers df column mn mx).1.Data = rows by
            simp [filterOutliers, hci, hloop]]
          exact hfil

/-- Witness for C10 at the salary table with a reversed arrival order. -/
theorem filterOutliersParallel_frame_witness :
    (filterOutliersParallel dfSalary "Salary" 2000 10000 [4, 3, 2, 1, 0]).1 = dfSalary ∧
    ∃ res, (filterOutliersParallel dfSalary "Salary" 2000 10000 [4, 3, 2, 1, 0]).2 = .ok res ∧
      res.Headers = dfSalary.Headers ∧
      res.Data.Perm (dfSalary.Data.filter (fun r => pKeepCell 2000 10000 (cellAt 2 r))) ∧
      ∀ row ∈ res.Data, row ∈ dfSalary.Data := by
  have h := filterOutliersParallel_frame dfSalary "Salary" 2000 10000 2 [4, 3, 2, 1, 0]
    (by decide) (by decide)
  exact ⟨h.1, h.2.1⟩

end Cleango
